import Mathlib

/-!
QSigner (DigiDoc4 client): token ordering, discovery loop and PIN-gated operations.

A shallow embedding of `client/QSigner.cpp` together with the one function of
`client/SslCertificate.cpp` it relies on (`SslCertificate::keyUsage`).

* Qt strings are lists of characters, byte arrays are lists of numbers.
* Calls into collaborators (the card lock, the crypto backend, the card-presence
  component, signals) are recorded as events of a trace, in call order.
* What the crypto backend answers is an input of the model.
-/

namespace QSigner

/-! ## Data model -/

/-- A `QString`: the sequence of its characters. -/
abbrev QString := List Char

/-- A `QByteArray`: the sequence of its bytes. -/
abbrev QByteArray := List Nat

/-- The enum `SslCertificate::KeyUsage`; the loop of `SslCertificate::keyUsage`
(SslCertificate.cpp:201-217) switches on the bit number `n` of the X.509 key-usage
bit string, so the enumerators are the nine bit positions `0..8`. -/
inductive KeyUsage
  | DigitalSignature
  | NonRepudiation
  | KeyEncipherment
  | DataEncipherment
  | KeyAgreement
  | KeyCertificateSign
  | CRLSign
  | EncipherOnly
  | DecipherOnly
  deriving DecidableEq, Repr

/-- The enumerator with value `n`, for `n` in `0..8`. -/
def KeyUsage.ofBit : Nat → Option KeyUsage
  | 0 => some .DigitalSignature
  | 1 => some .NonRepudiation
  | 2 => some .KeyEncipherment
  | 3 => some .DataEncipherment
  | 4 => some .KeyAgreement
  | 5 => some .KeyCertificateSign
  | 6 => some .CRLSign
  | 7 => some .EncipherOnly
  | 8 => some .DecipherOnly
  | _ => none

/-- The enum `QSsl::KeyAlgorithm`, as far as QSigner distinguishes it. -/
inductive KeyAlgorithm
  | Rsa
  | Ec
  | Dsa
  | Opaque
  deriving DecidableEq, Repr

/-- A `QSslKey` as QSigner reads it: its algorithm and whether `handle()` is non-null. -/
structure QSslKey where
  algorithm : KeyAlgorithm
  handle : Bool
  deriving DecidableEq, Repr

/-- The parsed certificate behind a non-null `QSslCertificate` handle: its DER bytes,
the key-usage extension (absent, or its bit string) and its public key. -/
structure X509 where
  der : QByteArray
  keyUsageExt : Option (List Bool)
  publicKey : QSslKey
  deriving DecidableEq, Repr

/-- A `QSslCertificate`: `none` is the null certificate (`handle()` is null). -/
abbrev QSslCertificate := Option X509

/-- The result of `QSslCertificate::isNull`. -/
def QSslCertificate.isNull (c : QSslCertificate) : Bool := c.isNone

/-- `SslCertificate::keyUsage` (SslCertificate.cpp:195-220): the keys of the returned
hash. Without a handle or without the extension the hash is empty; otherwise it holds
every usage whose bit `n < 9` is set. -/
def keyUsage (c : QSslCertificate) : List KeyUsage :=
  match c with
  | none => []
  | some x =>
    match x.keyUsageExt with
    | none => []
    | some bits =>
      (List.range 9).filterMap fun n =>
        if bits.getD n false then KeyUsage.ofBit n else none

/-- Modelled from the spec: the class `TokenData` (TokenData.h is not part of the
sources). Spec §3: a token identity is a device label and a certificate, and
"Equality is structural (device + certificate)". -/
structure TokenData where
  card : QString
  cert : QSslCertificate
  deriving DecidableEq, Repr

/-- The default-constructed `TokenData()`, which is also what `clear()` leaves. -/
def TokenData.empty : TokenData := ⟨[], none⟩

/-- Modelled from the spec: `TokenData::isNull`, true of the identity that names no
device and carries no certificate (the "empty" slot of spec §3). -/
def TokenData.isNull (t : TokenData) : Bool := t.card.isEmpty && t.cert.isNull

/-! ## cardsOrder (QSigner.cpp:145-179) -/

/-- The lambda `cardsOrderScore` (QSigner.cpp:147-158). -/
def cardsOrderScore (c : Char) : Nat :=
  if c = 'N' then 6
  else if c = 'A' then 5
  else if c = 'P' then 4
  else if c = 'E' then 3
  else if c = 'F' then 2
  else if c = 'B' then 1
  else 0

/-- The class `\w` of the pattern (no Unicode-properties option is set): an ASCII letter,
an ASCII digit or the underscore. -/
def isWordChar (c : Char) : Bool := c.isAlphanum || c == '_'

/-- The group `(\d{7})` tried at the head of the input: its capture when the first seven
characters are ASCII digits. -/
def sevenDigits (s : QString) : Option QString :=
  let d := s.take 7
  if d.length = 7 ∧ d.all Char.isDigit = true then some d else none

/-- The pattern `(\w{1,2})(\d{7})` tried at the head of the input. The quantifier is
greedy: two word characters are tried first, one word character on backtracking. The
result is the pair of captures (type code, serial). -/
def matchHere : QString → Option (QString × QString)
  | a :: b :: rest =>
    if isWordChar a then
      match (if isWordChar b then sevenDigits rest else none) with
      | some d => some ([a, b], d)
      | none => (sevenDigits (b :: rest)).map fun d => ([a], d)
    else none
  | _ => none

/-- A `QRegularExpressionMatch`, as cardsOrder reads it. -/
structure QRegularExpressionMatch where
  hasMatch : Bool
  capturedTexts : List QString
  deriving DecidableEq, Repr

/-- The call `reg.match(subject)` for the pattern `(\w{1,2})(\d{7})`: the leftmost match.
A successful match captures the whole match, the type code and the serial; a failed match
has no captured texts. -/
def regMatch : QString → QRegularExpressionMatch
  | [] => ⟨false, []⟩
  | c :: cs =>
    match matchHere (c :: cs) with
    | some (t, d) => ⟨true, [t ++ d, t, d]⟩
    | none => regMatch cs

/-- The value of a string of decimal digits. -/
def digitsValue (s : QString) : Nat :=
  s.foldl (fun acc c => 10 * acc + (c.toNat - 48)) 0

/-- The call `QString::toUInt` on a string of ASCII digits: its value when that fits in
32 bits, and `0` when the conversion fails. (Signs and surrounding white space, which
`toUInt` also accepts, do not occur in a capture of `\d{7}`.) -/
def toUInt (s : QString) : Nat :=
  if s ≠ [] ∧ s.all Char.isDigit = true ∧ digitsValue s < 2 ^ 32 then digitsValue s else 0

/-- The comparator `QSigner::cardsOrder` (QSigner.cpp:145-179). The result is `none` when
an index into a capture list or into a capture is out of range. Note that both `cap1`
and `cap2` are read from `r1`, as in the source. -/
def cardsOrder (s1 s2 : TokenData) : Option Bool :=
  let r1 := regMatch s1.card
  let r2 := regMatch s2.card
  if r1.hasMatch || r2.hasMatch then some false
  else
    let cap1 := r1.capturedTexts
    let cap2 := r1.capturedTexts
    if cap1.isEmpty || cap2.isEmpty then some false
    else do
      let t1 ← cap1[1]?
      let t2 ← cap2[1]?
      -- new cards to front
      if t1.length ≠ t2.length then
        pure (decide (t1.length > t2.length))
      else do
        let a1 ← t1[0]?
        let a2 ← t2[0]?
        -- card type order
        if a1 ≠ a2 then
          pure (decide (cardsOrderScore a1 > cardsOrderScore a2))
        else do
          -- card version order
          let versionDiffers ←
            if t1.length > 1 ∧ t2.length > 1 then do
              let b1 ← t1[1]?
              let b2 ← t2[1]?
              pure (if b1 ≠ b2 then some (decide (b1.toNat > b2.toNat)) else none)
            else pure none
          match versionDiffers with
          | some r => pure r
          | none => do
            -- serial number order
            let n1 ← cap1[2]?
            let n2 ← cap2[2]?
            pure (decide (toUInt n1 > toUInt n2))

/-- The comparator as `std::sort` calls it: a call that returns true. -/
def cardsOrderLt (s1 s2 : TokenData) : Bool := cardsOrder s1 s2 == some true

/-! ### The ordering of spec §4.2.1, in the spec's words -/

/-- Spec §4.2.1: a device label parsed "into a 1–2 letter type code and a 7-digit serial
number", from the label's own match. -/
def specParse (label : QString) : Option (QString × Nat) :=
  match (regMatch label).capturedTexts with
  | [_, t, d] => some (t, toUInt d)
  | _ => none

/-- Spec §4.2.1 on two parsed labels (type code, serial): the shorter type code first;
for equal lengths the higher priority of the first letter; for the same first letter and
a second character on both sides the greater second character; else the larger serial. -/
def specPrecedesParsed (p1 p2 : QString × Nat) : Bool :=
  let t1 := p1.1
  let t2 := p2.1
  if t1.length ≠ t2.length then decide (t1.length < t2.length)
  else
    match t1, t2 with
    | a1 :: r1, a2 :: r2 =>
      if a1 ≠ a2 then decide (cardsOrderScore a1 > cardsOrderScore a2)
      else
        match r1, r2 with
        | b1 :: _, b2 :: _ =>
          if b1 ≠ b2 then decide (b1.toNat > b2.toNat) else decide (p1.2 > p2.2)
        | _, _ => decide (p1.2 > p2.2)
    | _, _ => decide (p1.2 > p2.2)

/-- Spec §4.2.1 as a relation on device labels: "unparsable labels sort last", shorter
type codes first, then the priority of the first letter, then the second character
(higher first), then "numerically larger serial number sorts first". -/
def specPrecedes (s1 s2 : TokenData) : Bool :=
  match specParse s1.card, specParse s2.card with
  | some p1, some p2 => specPrecedesParsed p1 p2
  | some _, none => true
  | none, _ => false

/-! ## Sorting -/

/-- Insert `x` into a list, after the leading elements that `lt` puts before it. -/
def orderedInsert (lt : α → α → Bool) (x : α) : List α → List α
  | [] => [x]
  | y :: ys => if lt y x then y :: orderedInsert lt x ys else x :: y :: ys

/-- An insertion sort driven by a less-than comparator. `QSigner::run` calls `std::sort`,
whose contract is only that the result is a reordering of the input, sorted by the
comparator; the model of `run` therefore takes the sort as an argument, and this sort is
the instance used on concrete inputs. -/
def insertionSort (lt : α → α → Bool) : List α → List α
  | [] => []
  | x :: xs => orderedInsert lt x (insertionSort lt xs)

/-- The type of a sort routine taking a comparator, such as `std::sort`. -/
abbrev Sorter := (TokenData → TokenData → Bool) → List TokenData → List TokenData

/-- The contract of `std::sort` that the discovery loop relies on: the sorted range holds
the same elements as the input. -/
def Sorter.Reorders (sort : Sorter) : Prop :=
  ∀ (lt : TokenData → TokenData → Bool) (l : List TokenData), (sort lt l).Perm l

/-! ## Collaborators -/

/-- The enum `QCryptoBackend::PinStatus`: the five enumerators QSigner names, and
`OtherError` for every further enumerator, which the `default:` labels handle. -/
inductive PinStatus
  | PinOK
  | PinCanceled
  | PinIncorrect
  | PinLocked
  | UnknownError
  | OtherError (code : Nat)
  deriving DecidableEq, Repr

/-- The enum `QSigner::ErrorCode`, the result of `decrypt`. -/
inductive ErrorCode
  | PinCanceled
  | PinLocked
  | DecryptFailed
  | DecryptOK
  deriving DecidableEq, Repr

/-- The codes `digidoc::Exception::ExceptionCode` that `sign` throws. -/
inductive ExceptionCode
  | General
  | PINCanceled
  | PINLocked
  | PINFailed
  deriving DecidableEq, Repr

/-- A call into a collaborator or an emitted signal, as recorded in a trace. -/
inductive Event
  | readTryLock (granted : Bool)
  | readUnlock
  | exclusiveTryLock (granted : Bool)
  | exclusiveUnlock
  | pkcs11Reload (ok : Bool)
  | error (text : String) (status : Option PinStatus)
  | cacheChanged
  | authDataChanged (t : TokenData)
  | signDataChanged (t : TokenData)
  | reloadCard (t : TokenData)
  | reload
  | login (t : TokenData)
  | showWarning (status : PinStatus)
  | backendSign (type : Nat) (digest : QByteArray)
  | backendDecrypt (input : QByteArray)
  | backendDeriveConcatKDF (input : QByteArray) (digest : QString) (keySize : Int)
      (algorithmID partyUInfo partyVInfo : QByteArray)
  | backendLogout
  | lastError
  | setEcMethod
  | setRsaMethod
  deriving DecidableEq, Repr

/-- What the crypto backend answers during one foreground operation: the results of the
successive `login` calls, the results of `sign`, `decrypt` and `deriveConcatKDF`, and the
value `lastError()` has after the operation. -/
structure Backend where
  logins : List PinStatus
  sign : Nat → QByteArray → QByteArray
  decrypt : QByteArray → QByteArray
  deriveConcatKDF : QByteArray → QString → Int → QByteArray → QByteArray → QByteArray →
    QByteArray
  lastError : PinStatus

/-- The state of `QSigner::Private` the operations read and write (QSigner.cpp:52-53). -/
structure Private where
  auth : TokenData
  sign : TokenData
  cache : List TokenData
  deriving DecidableEq, Repr

/-- The state `run` starts from (QSigner.cpp:298-299, with the cache still empty). -/
def Private.init : Private := ⟨TokenData.empty, TokenData.empty, []⟩

/-! ## The discovery loop, QSigner::run (QSigner.cpp:296-374) -/

/-- The test of QSigner.cpp:334-335: eligible for the authentication role. -/
def isAuthCard (t : TokenData) : Bool :=
  (keyUsage t.cert).contains KeyUsage.KeyEncipherment ||
    (keyUsage t.cert).contains KeyUsage.KeyAgreement

/-- The test of QSigner.cpp:337: eligible for the signing role. -/
def isSignCard (t : TokenData) : Bool :=
  (keyUsage t.cert).contains KeyUsage.NonRepudiation

/-- QSigner.cpp:342-351: a selected token that is not among the eligible cards any more
is cleared. -/
def checkSelected (cards : List TokenData) (t : TokenData) : TokenData :=
  if !t.isNull && !cards.contains t then TokenData.empty else t

/-- QSigner.cpp:355-358: with nothing selected, the first eligible card is picked. -/
def pickFirst (cards : List TokenData) (t : TokenData) : TokenData :=
  match cards with
  | [] => t
  | c :: _ => if t.isNull then c else t

/-- The values of `at` and `st` at QSigner.cpp:360, and the sorted enumeration. -/
structure Selection where
  cache : List TokenData
  at1 : TokenData
  st : TokenData

/-- QSigner.cpp:321-358 for the enumeration `tokens` returned by `backend->tokens()`. -/
def select (sort : Sorter) (d : Private) (tokens : List TokenData) : Selection :=
  let cache := sort cardsOrderLt tokens
  let stored := if cache ≠ d.cache then cache else d.cache
  let acards := stored.filter isAuthCard
  let scards := stored.filter isSignCard
  let at1 := checkSelected acards d.auth
  let st := checkSelected scards d.sign
  let st := pickFirst scards st
  let at1 := pickFirst acards at1
  ⟨cache, at1, st⟩

/-- The body of one completed discovery iteration (QSigner.cpp:321-367): the new state
and the signals and calls it makes, in order. -/
def discover (sort : Sorter) (d : Private) (tokens : List TokenData) :
    Private × List Event :=
  let aold := d.auth
  let sold := d.sign
  let sel := select sort d tokens
  let update := TokenData.empty
  let update := if aold ≠ sel.at1 then sel.at1 else update
  let update := if sold ≠ sel.st then sel.st else update
  (⟨if aold ≠ sel.at1 then sel.at1 else d.auth,
    if sold ≠ sel.st then sel.st else d.sign,
    if sel.cache ≠ d.cache then sel.cache else d.cache⟩,
   (if sel.cache ≠ d.cache then [Event.cacheChanged] else []) ++
   (if aold ≠ sel.at1 then [Event.authDataChanged sel.at1] else []) ++
   (if sold ≠ sel.st then [Event.signDataChanged sel.st] else []) ++
   (if aold ≠ sel.at1 ∨ sold ≠ sel.st then [Event.reloadCard update] else []))

/-- One pass of the loop body QSigner.cpp:312-369. `granted` is the result of
`readTryLock`, `pkcs11` the result of `QPKCS11::reload` (`none` when the backend is not the
PKCS#11 one). The last component tells whether `run` returns (the worker ends). -/
def runIteration (sort : Sorter) (granted : Bool) (pkcs11 : Option Bool) (d : Private)
    (tokens : List TokenData) : Private × List Event × Bool :=
  if granted then
    match pkcs11 with
    | some false =>
      (d, [Event.readTryLock true, Event.pkcs11Reload false,
        Event.error "Failed to load PKCS#11 module" none], true)
    | _ =>
      let r := discover sort d tokens
      (r.1, [Event.readTryLock true] ++
        (match pkcs11 with
          | some ok => [Event.pkcs11Reload ok]
          | none => []) ++
        r.2 ++ [Event.readUnlock], false)
  else (d, [Event.readTryLock false], false)

/-! ## Foreground operations -/

/-- The login loops of `sign`, `decrypt` and `key` (QSigner.cpp:424-445, 206-228,
252-266), up to the first answer other than `PinIncorrect`: every `PinIncorrect` shows a
warning and `continue`s, so `login` is called again; any other answer ends the loop, in
the `switch` or at the `while` test. The result is the calls made and that last answer,
or `none` when the recorded answers end before the loop does. -/
def loginLoop (t : TokenData) : List PinStatus → Option (List Event × PinStatus)
  | [] => none
  | s :: rest =>
    if s = PinStatus.PinIncorrect then
      (loginLoop t rest).map fun r =>
        (Event.login t :: Event.showWarning PinStatus.PinIncorrect :: r.1, r.2)
    else some ([Event.login t], s)

/-- The constants `NID_sha256`, `NID_sha384`, `NID_sha512`, `NID_sha224` of
`openssl/obj_mac.h`. -/
def NID_sha256 : Nat := 672

/-- See `NID_sha256`. -/
def NID_sha384 : Nat := 673

/-- See `NID_sha256`. -/
def NID_sha512 : Nat := 674

/-- See `NID_sha256`. -/
def NID_sha224 : Nat := 675

/-- The digest type `sign` derives from the method URI (QSigner.cpp:413-421). -/
def digestType (method : String) : Nat :=
  let type := NID_sha256
  let type :=
    if method = "http://www.w3.org/2001/04/xmldsig-more#rsa-sha224" ∨
      method = "http://www.w3.org/2001/04/xmldsig-more#ecdsa-sha224" then NID_sha224
    else type
  let type :=
    if method = "http://www.w3.org/2001/04/xmldsig-more#rsa-sha256" ∨
      method = "http://www.w3.org/2001/04/xmldsig-more#ecdsa-sha256" then NID_sha256
    else type
  let type :=
    if method = "http://www.w3.org/2001/04/xmldsig-more#rsa-sha384" ∨
      method = "http://www.w3.org/2001/04/xmldsig-more#ecdsa-sha384" then NID_sha384
    else type
  let type :=
    if method = "http://www.w3.org/2001/04/xmldsig-more#rsa-sha512" ∨
      method = "http://www.w3.org/2001/04/xmldsig-more#ecdsa-sha512" then NID_sha512
    else type
  type

/-- The function `QSigner::sign` (QSigner.cpp:396-459). `granted` is the result of
`exclusiveTryLock`. The result is the trace and either the thrown exception code or the
returned bytes; `none` when the recorded login answers end before the login loop does. -/
def sign (granted : Bool) (d : Private) (b : Backend) (method : String)
    (digest : QByteArray) : Option (List Event × Except ExceptionCode QByteArray) :=
  if !granted then
    some ([Event.exclusiveTryLock false], Except.error ExceptionCode.General)
  else if d.sign.cert.isNull then
    some ([Event.exclusiveTryLock true, Event.exclusiveUnlock],
      Except.error ExceptionCode.General)
  else
    let type := digestType method
    match loginLoop d.sign b.logins with
    | none => none
    | some (calls, status) =>
      let pre := Event.exclusiveTryLock true :: calls
      match status with
      | PinStatus.PinOK =>
        let sig := b.sign type digest
        let tr := pre ++ [Event.backendSign type digest, Event.exclusiveUnlock,
          Event.backendLogout, Event.reload, Event.lastError]
        if b.lastError = PinStatus.PinCanceled then
          some (tr, Except.error ExceptionCode.PINCanceled)
        else if sig.isEmpty then
          some (tr, Except.error ExceptionCode.General)
        else some (tr, Except.ok sig)
      | PinStatus.PinCanceled =>
        some (pre ++ [Event.exclusiveUnlock, Event.reload],
          Except.error ExceptionCode.PINCanceled)
      | PinStatus.PinLocked =>
        some (pre ++ [Event.exclusiveUnlock, Event.reload],
          Except.error ExceptionCode.PINLocked)
      | _ =>
        some (pre ++ [Event.exclusiveUnlock, Event.reload],
          Except.error ExceptionCode.PINFailed)

/-- The public key of a certificate; the null certificate has the null key. -/
def publicKey (c : QSslCertificate) : QSslKey :=
  match c with
  | none => ⟨KeyAlgorithm.Opaque, false⟩
  | some x => x.publicKey

/-- The function `QSigner::decrypt` (QSigner.cpp:189-244). `granted` is the result of
`exclusiveTryLock`, `out` the caller's output buffer on entry. The result is the trace, the
returned code and the output buffer on return; `none` when the recorded login answers end
before the login loop does. -/
def decrypt (granted : Bool) (d : Private) (b : Backend) (input out : QByteArray)
    (digest : QString) (keySize : Int) (algorithmID partyUInfo partyVInfo : QByteArray) :
    Option (List Event × ErrorCode × QByteArray) :=
  if !granted then
    some ([Event.exclusiveTryLock false,
      Event.error "Signing/decrypting is already in progress another window." none],
      ErrorCode.DecryptFailed, out)
  else if d.auth.cert.isNull then
    some ([Event.exclusiveTryLock true,
      Event.error "Authentication certificate is not selected." none,
      Event.exclusiveUnlock], ErrorCode.DecryptFailed, out)
  else
    match loginLoop d.auth b.logins with
    | none => none
    | some (calls, status) =>
      let pre := Event.exclusiveTryLock true :: calls
      match status with
      | PinStatus.PinOK =>
        let rsa := decide ((publicKey d.auth.cert).algorithm = KeyAlgorithm.Rsa)
        let out :=
          if rsa then b.decrypt input
          else b.deriveConcatKDF input digest keySize algorithmID partyUInfo partyVInfo
        let call :=
          if rsa then Event.backendDecrypt input
          else Event.backendDeriveConcatKDF input digest keySize algorithmID partyUInfo
            partyVInfo
        let tr := pre ++ [call, Event.exclusiveUnlock, Event.backendLogout, Event.reload,
          Event.lastError]
        if b.lastError = PinStatus.PinCanceled then
          some (tr, ErrorCode.PinCanceled, out)
        else if out.isEmpty then
          some (tr ++ [Event.error "Failed to decrypt document" none],
            ErrorCode.DecryptFailed, out)
        else some (tr, ErrorCode.DecryptOK, out)
      | PinStatus.PinCanceled =>
        some (pre ++ [Event.exclusiveUnlock], ErrorCode.PinCanceled, out)
      | PinStatus.PinLocked =>
        some (pre ++ [Event.exclusiveUnlock, Event.reload,
          Event.error "" (some PinStatus.PinLocked)], ErrorCode.PinLocked, out)
      | other =>
        some (pre ++ [Event.exclusiveUnlock, Event.reload,
          Event.error "Failed to login token" (some other)], ErrorCode.DecryptFailed, out)

/-- The function `QSigner::key` (QSigner.cpp:246-287). `granted` is the result of
`exclusiveTryLock`. The result is the trace and the returned key (`none` for the null key
`{}`); the outer `none` when the recorded login answers end before the login loop does. -/
def key (granted : Bool) (d : Private) (b : Backend) :
    Option (List Event × Option QSslKey) :=
  if !granted then some ([Event.exclusiveTryLock false], none)
  else
    match loginLoop d.auth b.logins with
    | none => none
    | some (calls, status) =>
      let pre := Event.exclusiveTryLock true :: calls
      match status with
      | PinStatus.PinOK =>
        let key := publicKey d.auth.cert
        if !key.handle then some (pre ++ [Event.exclusiveUnlock], some key)
        else if key.algorithm = KeyAlgorithm.Ec then some (pre ++ [Event.setEcMethod], some key)
        else some (pre ++ [Event.setRsaMethod], some key)
      | _ => some (pre ++ [Event.exclusiveUnlock, Event.reload], none)

/-- The function `QSigner::logout` (QSigner.cpp:289-294): the calls it makes. -/
def logout : List Event :=
  [Event.backendLogout, Event.exclusiveUnlock, Event.reload]

/-! ## Reading a trace -/

/-- How often the event `e` occurs in a trace. -/
def calls (e : Event) (tr : List Event) : Nat := tr.count e

/-- How many `login` calls a trace holds. -/
def loginCalls (tr : List Event) : Nat :=
  (tr.filter fun e => match e with
    | Event.login _ => true
    | _ => false).length

/-- How many retry warnings a trace holds. -/
def warningCalls (tr : List Event) : Nat :=
  (tr.filter fun e => match e with
    | Event.showWarning _ => true
    | _ => false).length

/-- How many backend `sign` calls a trace holds. -/
def signCalls (tr : List Event) : Nat :=
  (tr.filter fun e => match e with
    | Event.backendSign _ _ => true
    | _ => false).length

/-- How many `authDataChanged` signals a trace holds. -/
def authSignals (tr : List Event) : Nat :=
  (tr.filter fun e => match e with
    | Event.authDataChanged _ => true
    | _ => false).length

/-- How many `signDataChanged` signals a trace holds. -/
def signSignals (tr : List Event) : Nat :=
  (tr.filter fun e => match e with
    | Event.signDataChanged _ => true
    | _ => false).length

/-- The calls of `n` failed login rounds: each is a `login` followed by a warning. -/
def retryCalls (t : TokenData) : Nat → List Event
  | 0 => []
  | n + 1 => Event.login t :: Event.showWarning PinStatus.PinIncorrect :: retryCalls t n

/-- How many backend `decrypt` and `deriveConcatKDF` calls a trace holds. -/
def decryptCalls (tr : List Event) : Nat :=
  (tr.filter fun e => match e with
    | Event.backendDecrypt _ => true
    | Event.backendDeriveConcatKDF _ _ _ _ _ _ => true
    | _ => false).length

/-- How many `readUnlock` calls a trace holds. -/
def readUnlocks (tr : List Event) : Nat := tr.count Event.readUnlock

/-- The identities handed to `QSmartCard::reloadCard` in a trace, in call order. -/
def reloadedCards (tr : List Event) : List TokenData :=
  tr.filterMap fun e => match e with
    | Event.reloadCard t => some t
    | _ => none

/-! ## QSigner::selectCard (QSigner.cpp:376-394) -/

/-- The loop of QSigner.cpp:384-393 over the cached identities: the first identity that
is not `token` itself and is on the card of `token` goes into the slot of the other role,
and the function returns. -/
def selectOther (isSign : Bool) (token : TokenData) (d : Private) :
    List TokenData → Private × List Event
  | [] => (d, [])
  | other :: rest =>
    if other = token ∨ other.card ≠ token.card then selectOther isSign token d rest
    else if isSign then
      (⟨other, d.sign, d.cache⟩, [Event.authDataChanged other])
    else
      (⟨d.auth, other, d.cache⟩, [Event.signDataChanged other])

/-- The function `QSigner::selectCard` (QSigner.cpp:376-394): the new state and the calls
and signals it makes, in order. -/
def selectCard (d : Private) (token : TokenData) : Private × List Event :=
  let isSign := (keyUsage token.cert).contains KeyUsage.NonRepudiation
  let d1 : Private := if isSign then ⟨d.auth, token, d.cache⟩ else ⟨token, d.sign, d.cache⟩
  let first := if isSign then Event.signDataChanged token else Event.authDataChanged token
  let r := selectOther isSign token d1 d1.cache
  (r.1, Event.reloadCard token :: first :: r.2)

/-! ## The elliptic-curve hook, QSigner::Private::ecdsa_do_sign (QSigner.cpp:81-95) -/

/-- The call `QByteArray::left(len)`: the first `len` bytes. -/
def left (a : QByteArray) (len : Nat) : QByteArray := a.take len

/-- The call `QByteArray::right(len)`: the last `len` bytes. -/
def right (a : QByteArray) (len : Nat) : QByteArray := a.drop (a.length - len)

/-- The function `BN_bin2bn` of OpenSSL: the unsigned integer whose big-endian
representation the bytes are. -/
def BN_bin2bn (bytes : QByteArray) : Nat :=
  bytes.foldl (fun acc x => 256 * acc + x % 256) 0

/-- The two byte strings `r` and `s` of QSigner.cpp:88-89. -/
def ecdsaHalves (result : QByteArray) : QByteArray × QByteArray :=
  (left result (result.length / 2), right result (result.length / 2))

/-- The hook `QSigner::Private::ecdsa_do_sign` (QSigner.cpp:81-95): `none` is the null
signature, otherwise the pair `(r, s)` set into the `ECDSA_SIG`. The backend is asked to
sign with type `0`. -/
def ecdsa_do_sign (b : Backend) (dgst : QByteArray) : Option (Nat × Nat) :=
  let result := b.sign 0 dgst
  if result.isEmpty then none
  else
    let r := left result (result.length / 2)
    let s := right result (result.length / 2)
    some (BN_bin2bn r, BN_bin2bn s)

/-! ## SslCertificate::type (SslCertificate.cpp:302-352) -/

/-- The enum `SslCertificate::CertType`, as far as `type()` returns it. -/
inductive CertType
  | UnknownType
  | DigiIDType
  | EstEidType
  | MobileIDType
  | TempelType
  | EResidentType
  deriving DecidableEq, Repr

/-- The call `QString::startsWith`. -/
def startsWith (p : String) (lit : String) : Bool := lit.toList.isPrefixOf p.toList

/-- The call `QString::contains` for a substring. -/
def containsText (s : String) (sub : String) : Bool :=
  s.toList.tails.any fun t => sub.toList.isPrefixOf t

/-- The constant `digidoc::X509Cert::QCT_ESEAL` of libdigidocpp, the OID of the
electronic-seal statement. -/
def QCT_ESEAL : String := "0.4.0.1862.1.6.2"

/-- The loop of SslCertificate.cpp:304-333 over the policy OIDs: the type returned by the
first policy that one of the branches accepts, `none` when the loop ends without a
return. `organization` is `subjectInfo(QSslCertificate::Organization)`. -/
def typeOfPolicies (organization : String) : List String → Option CertType
  | [] => none
  | p :: rest =>
    if startsWith p "1.3.6.1.4.1.10015.1.1" ||
        startsWith p "1.3.6.1.4.1.10015.3.1" then
      some CertType.EstEidType
    else if startsWith p "1.3.6.1.4.1.10015.1.2" ||
        startsWith p "1.3.6.1.4.1.10015.3.2" then
      some (if containsText organization "E-RESIDENT" then CertType.EResidentType
        else CertType.DigiIDType)
    else if startsWith p "1.3.6.1.4.1.10015.1.3" ||
        startsWith p "1.3.6.1.4.1.10015.11.1" ||
        startsWith p "1.3.6.1.4.1.10015.3.3" ||
        startsWith p "1.3.6.1.4.1.10015.3.11" then
      some CertType.MobileIDType
    else if startsWith p "1.3.6.1.4.1.10015.7.1" ||
        startsWith p "1.3.6.1.4.1.10015.7.3" ||
        startsWith p "1.3.6.1.4.1.10015.2.1" ||
        startsWith p "1.3.6.1.4.1.10015.3.7" then
      some CertType.TempelType
    else if startsWith p "1.3.6.1.4.1.51361.1.1.3" ||
        startsWith p "1.3.6.1.4.1.51361.1.2.3" then
      some CertType.DigiIDType
    else if startsWith p "1.3.6.1.4.1.51361.1.1.4" ||
        startsWith p "1.3.6.1.4.1.51361.1.2.4" then
      some CertType.EResidentType
    else if startsWith p "1.3.6.1.4.1.51361.1.1" ||
        startsWith p "1.3.6.1.4.1.51455.1.1" ||
        startsWith p "1.3.6.1.4.1.51361.1.2" ||
        startsWith p "1.3.6.1.4.1.51455.1.2" then
      some CertType.EstEidType
    else typeOfPolicies organization rest

/-- The function `SslCertificate::type` (SslCertificate.cpp:302-352) of a certificate
with the policy OIDs `policies` and the subject organization `organization`.
`qcStatements` is `none` when the DER form is null or libdigidocpp throws on it, and
otherwise the statements of the qcStatements extension. -/
def SslCertificate.type (policies : List String) (organization : String)
    (qcStatements : Option (List String)) : CertType :=
  match typeOfPolicies organization policies with
  | some t => t
  | none =>
    match qcStatements with
    | some statements =>
      if statements.any (fun st => st == QCT_ESEAL) then CertType.TempelType
      else CertType.UnknownType
    | none => CertType.UnknownType

/-- The OID literals of the branches of `SslCertificate::type`, each with the type its
branch returns for a subject organization without `E-RESIDENT`. -/
def listedPolicies : List (String × CertType) :=
  [("1.3.6.1.4.1.10015.1.1", CertType.EstEidType),
   ("1.3.6.1.4.1.10015.3.1", CertType.EstEidType),
   ("1.3.6.1.4.1.10015.1.2", CertType.DigiIDType),
   ("1.3.6.1.4.1.10015.3.2", CertType.DigiIDType),
   ("1.3.6.1.4.1.10015.1.3", CertType.MobileIDType),
   ("1.3.6.1.4.1.10015.11.1", CertType.MobileIDType),
   ("1.3.6.1.4.1.10015.3.3", CertType.MobileIDType),
   ("1.3.6.1.4.1.10015.3.11", CertType.MobileIDType),
   ("1.3.6.1.4.1.10015.7.1", CertType.TempelType),
   ("1.3.6.1.4.1.10015.7.3", CertType.TempelType),
   ("1.3.6.1.4.1.10015.2.1", CertType.TempelType),
   ("1.3.6.1.4.1.10015.3.7", CertType.TempelType),
   ("1.3.6.1.4.1.51361.1.1.3", CertType.DigiIDType),
   ("1.3.6.1.4.1.51361.1.2.3", CertType.DigiIDType),
   ("1.3.6.1.4.1.51361.1.1.4", CertType.EResidentType),
   ("1.3.6.1.4.1.51361.1.2.4", CertType.EResidentType),
   ("1.3.6.1.4.1.51361.1.1", CertType.EstEidType),
   ("1.3.6.1.4.1.51455.1.1", CertType.EstEidType),
   ("1.3.6.1.4.1.51361.1.2", CertType.EstEidType),
   ("1.3.6.1.4.1.51455.1.2", CertType.EstEidType)]

/-! ## Concrete identities used as inputs -/

/-- A certificate whose key usage is non-repudiation only. -/
def signCert : QSslCertificate :=
  some ⟨[48, 1], some [false, true], ⟨KeyAlgorithm.Ec, true⟩⟩

/-- A certificate whose key usage is key agreement (and digital signature). -/
def authCert : QSslCertificate :=
  some ⟨[48, 2], some [true, false, false, false, true], ⟨KeyAlgorithm.Ec, true⟩⟩

/-- The signing identity of the card `N1000001`. -/
def signA : TokenData := ⟨"N1000001".toList, signCert⟩

/-- The authentication identity of the card `N1000001`. -/
def authA : TokenData := ⟨"N1000001".toList, authCert⟩

/-- The authentication identity of the card `N1000002`. -/
def authB : TokenData := ⟨"N1000002".toList, authCert⟩

/-- An engine state with both identities of the card `N1000001` selected. -/
def stateA : Private := ⟨authA, signA, [signA, authA]⟩

/-- A backend whose `login` answers come from `logins`; `sign` returns three bytes,
`decrypt` and `deriveConcatKDF` return one byte, and no error is recorded. -/
def backendWith (logins : List PinStatus) : Backend :=
  ⟨logins, fun _ _ => [1, 2, 3], fun _ => [4], fun _ _ _ _ _ _ => [5], PinStatus.PinOK⟩

/-- A second certificate whose key usage is non-repudiation only. -/
def signCert2 : QSslCertificate :=
  some ⟨[48, 3], some [false, true], ⟨KeyAlgorithm.Ec, true⟩⟩

/-- A second signing identity on the card `N1000001`. -/
def signA2 : TokenData := ⟨"N1000001".toList, signCert2⟩

/-- A backend whose `sign` returns the bytes `result` and that records no error. -/
def backendSigning (result : QByteArray) : Backend :=
  ⟨[PinStatus.PinOK], fun _ _ => result, fun _ => [], fun _ _ _ _ _ _ => [],
    PinStatus.PinOK⟩

/-! ## The comparator -/

/-- A failed match has no captured texts. -/
theorem regMatch_capturedTexts_of_no_match (s : QString)
    (h : (regMatch s).hasMatch = false) : (regMatch s).capturedTexts = [] := by
  induction s with
  | nil => rfl
  | cons c cs ih =>
    unfold regMatch at h ⊢
    cases hm : matchHere (c :: cs) with
    | none =>
      rw [hm] at h
      simpa [hm] using ih h
    | some p =>
      rw [hm] at h
      simp at h

/-- Every call of the comparator returns false: with a match on either side the first
guard returns, and without one the capture list is empty and the second guard returns. -/
theorem cardsOrder_eq_false (s1 s2 : TokenData) : cardsOrder s1 s2 = some false := by
  unfold cardsOrder
  by_cases h : ((regMatch s1.card).hasMatch || (regMatch s2.card).hasMatch) = true
  · simp [h]
  · have h1 : (regMatch s1.card).hasMatch = false := by
      cases h1 : (regMatch s1.card).hasMatch <;> simp_all
    have hc := regMatch_capturedTexts_of_no_match s1.card h1
    simp [h, hc]

/-- The comparator handed to `std::sort` is false on every pair. -/
theorem cardsOrderLt_eq_false (s1 s2 : TokenData) : cardsOrderLt s1 s2 = false := by
  simp [cardsOrderLt, cardsOrder_eq_false]

/-- C1: on the labels `N1000002` and `N1000001` (same type code, larger serial first) the
ordering of spec §4.2.1 puts the first before the second, while `cardsOrder` returns
false; it also returns false with the operands exchanged. -/
theorem cardsOrder_ignores_serial_order :
    specPrecedes authB authA = true ∧
    cardsOrder authB authA = some false ∧
    cardsOrder authA authB = some false := by
  refine ⟨by decide, cardsOrder_eq_false _ _, cardsOrder_eq_false _ _⟩

/-- C2: `cardsOrder` is a strict weak ordering: it is irreflexive, asymmetric and
transitive, and incomparability is transitive. -/
theorem cardsOrder_strict_weak_order :
    (∀ s, cardsOrder s s ≠ some true) ∧
    (∀ s1 s2, cardsOrder s1 s2 = some true → cardsOrder s2 s1 ≠ some true) ∧
    (∀ s1 s2 s3, cardsOrder s1 s2 = some true → cardsOrder s2 s3 = some true →
      cardsOrder s1 s3 = some true) ∧
    (∀ a b c, (cardsOrder a b ≠ some true ∧ cardsOrder b a ≠ some true) →
      (cardsOrder b c ≠ some true ∧ cardsOrder c b ≠ some true) →
      (cardsOrder a c ≠ some true ∧ cardsOrder c a ≠ some true)) := by
  refine ⟨?_, ?_, ?_, ?_⟩
  · intro s
    simp [cardsOrder_eq_false]
  · intro s1 s2 _
    simp [cardsOrder_eq_false]
  · intro s1 s2 s3 h
    simp [cardsOrder_eq_false] at h
  · intro a b c _ _
    simp [cardsOrder_eq_false]

/-! ## Sorting lemmas -/

/-- Inserting an element yields a reordering of the list with the element added. -/
theorem orderedInsert_perm (lt : α → α → Bool) (x : α) (l : List α) :
    (orderedInsert lt x l).Perm (x :: l) := by
  induction l with
  | nil => exact List.Perm.refl _
  | cons y ys ih =>
    unfold orderedInsert
    split
    · exact ((List.Perm.cons y ih).trans (List.Perm.swap x y ys))
    · exact List.Perm.refl _

/-- The insertion sort returns a reordering of its input. -/
theorem insertionSort_perm (lt : α → α → Bool) (l : List α) :
    (insertionSort lt l).Perm l := by
  induction l with
  | nil => exact List.Perm.refl _
  | cons x xs ih =>
    unfold insertionSort
    exact (orderedInsert_perm lt x _).trans (List.Perm.cons x ih)

/-- The insertion sort meets the contract of `std::sort` used by the discovery loop. -/
theorem insertionSort_reorders : Sorter.Reorders insertionSort :=
  fun lt l => insertionSort_perm lt l

/-! ## Discovery lemmas -/

/-- The empty identity is null. -/
theorem isNull_empty : TokenData.empty.isNull = true := rfl

/-- The empty identity is not eligible for authentication. -/
theorem isAuthCard_empty : isAuthCard TokenData.empty = false := rfl

/-- The empty identity is not eligible for signing. -/
theorem isSignCard_empty : isSignCard TokenData.empty = false := rfl

/-- The stored cache after the comparison of QSigner.cpp:326 is the sorted enumeration. -/
theorem stored_eq (cache old : List TokenData) :
    (if cache ≠ old then cache else old) = cache := by
  split
  · rfl
  · rename_i h
    exact (not_not.mp h).symm

/-- A selected identity that is not among the eligible cards is cleared. -/
theorem checkSelected_of_not_mem (cards : List TokenData) (t : TokenData)
    (hn : t.isNull = false) (hm : t ∉ cards) : checkSelected cards t = TokenData.empty := by
  have hc : cards.contains t = false := by simpa using hm
  unfold checkSelected
  rw [hn, hc]
  rfl

/-- A selected identity that is still among the eligible cards is kept. -/
theorem checkSelected_of_mem (cards : List TokenData) (t : TokenData) (hm : t ∈ cards) :
    checkSelected cards t = t := by
  have hc : cards.contains t = true := by simpa using hm
  unfold checkSelected
  rw [hc]
  simp

/-- An empty slot stays as it is in the validation step. -/
theorem checkSelected_of_isNull (cards : List TokenData) (t : TokenData)
    (hn : t.isNull = true) : checkSelected cards t = t := by
  unfold checkSelected
  rw [hn]
  simp

/-- A slot that is not null is not replaced by the first-pick step. -/
theorem pickFirst_of_not_isNull (cards : List TokenData) (t : TokenData)
    (hn : t.isNull = false) : pickFirst cards t = t := by
  unfold pickFirst
  cases cards with
  | nil => rfl
  | cons c cs => simp [hn]

/-- After validation and first-pick a slot is null or one of the eligible cards. -/
theorem pickFirst_checkSelected (cards : List TokenData) (t : TokenData) :
    (pickFirst cards (checkSelected cards t)).isNull = true ∨
      pickFirst cards (checkSelected cards t) ∈ cards := by
  have hempty : (pickFirst cards TokenData.empty).isNull = true ∨
      pickFirst cards TokenData.empty ∈ cards := by
    cases cards with
    | nil => exact Or.inl rfl
    | cons c cs =>
      right
      simp [pickFirst, isNull_empty]
  by_cases hn : t.isNull = true
  · rw [checkSelected_of_isNull cards t hn]
    cases cards with
    | nil => exact Or.inl hn
    | cons c cs =>
      right
      simp [pickFirst, hn]
  · have hn2 : t.isNull = false := by simpa using hn
    by_cases hm : t ∈ cards
    · rw [checkSelected_of_mem cards t hm, pickFirst_of_not_isNull cards t hn2]
      exact Or.inr hm
    · rw [checkSelected_of_not_mem cards t hn2 hm]
      exact hempty

/-- A cleared slot picks the first eligible card of the catalog, if there is one. -/
theorem pickFirst_empty (p : TokenData → Bool) (l : List TokenData) :
    pickFirst (l.filter p) TokenData.empty = (l.find? p).getD TokenData.empty := by
  induction l with
  | nil => rfl
  | cons x xs ih =>
    by_cases hx : p x = true
    · simp [List.filter_cons, List.find?_cons, hx, pickFirst, isNull_empty]
    · have hx2 : p x = false := by simpa using hx
      simpa [List.filter_cons, List.find?_cons, hx2] using ih

/-- The first element found by a predicate satisfies it. -/
theorem find_getD_ne_empty (p : TokenData → Bool) (hp : p TokenData.empty = false)
    (l : List TokenData) (h : l.any p = true) :
    (l.find? p).getD TokenData.empty ≠ TokenData.empty := by
  induction l with
  | nil => simp at h
  | cons x xs ih =>
    by_cases hx : p x = true
    · simp only [List.find?_cons, hx, Option.getD_some]
      intro he
      rw [he, hp] at hx
      exact Bool.false_ne_true hx
    · have hx2 : p x = false := by simpa using hx
      simp only [List.any_cons, hx2, Bool.false_or] at h
      simpa [List.find?_cons, hx2] using ih h

/-- Without an element satisfying the predicate nothing is found. -/
theorem find_getD_of_not_any (p : TokenData → Bool) (l : List TokenData)
    (h : l.any p = false) : (l.find? p).getD TokenData.empty = TokenData.empty := by
  induction l with
  | nil => rfl
  | cons x xs ih =>
    simp only [List.any_cons, Bool.or_eq_false_iff] at h
    simpa [List.find?_cons, h.1] using ih h.2

/-- A reordering has an element satisfying the predicate exactly when the input has. -/
theorem any_of_perm (p : TokenData → Bool) {l1 l2 : List TokenData} (h : l1.Perm l2) :
    l1.any p = l2.any p := by
  rw [Bool.eq_iff_iff]
  simp only [List.any_eq_true]
  constructor
  · rintro ⟨x, hx, hpx⟩
    exact ⟨x, h.mem_iff.mp hx, hpx⟩
  · rintro ⟨x, hx, hpx⟩
    exact ⟨x, h.mem_iff.mpr hx, hpx⟩

/-- The sorted enumeration computed by an iteration. -/
theorem select_cache (sort : Sorter) (d : Private) (tokens : List TokenData) :
    (select sort d tokens).cache = sort cardsOrderLt tokens := rfl

/-- The value of `at` after validation and first-pick. -/
theorem select_at1 (sort : Sorter) (d : Private) (tokens : List TokenData) :
    (select sort d tokens).at1 =
      pickFirst ((sort cardsOrderLt tokens).filter isAuthCard)
        (checkSelected ((sort cardsOrderLt tokens).filter isAuthCard) d.auth) := by
  unfold select
  simp only [stored_eq]

/-- The value of `st` after validation and first-pick. -/
theorem select_st (sort : Sorter) (d : Private) (tokens : List TokenData) :
    (select sort d tokens).st =
      pickFirst ((sort cardsOrderLt tokens).filter isSignCard)
        (checkSelected ((sort cardsOrderLt tokens).filter isSignCard) d.sign) := by
  unfold select
  simp only [stored_eq]

/-- The state after an iteration holds the sorted enumeration and the selected values. -/
theorem discover_state (sort : Sorter) (d : Private) (tokens : List TokenData) :
    (discover sort d tokens).1 =
      ⟨(select sort d tokens).at1, (select sort d tokens).st, sort cardsOrderLt tokens⟩ := by
  unfold discover
  simp only [select_cache]
  congr 1
  · split
    · rfl
    · rename_i h
      exact not_not.mp h
  · split
    · rfl
    · rename_i h
      exact not_not.mp h
  · exact stored_eq _ _

/-- The number of `cacheChanged` signals of an iteration. -/
theorem discover_cacheChanged (sort : Sorter) (d : Private) (tokens : List TokenData) :
    calls Event.cacheChanged (discover sort d tokens).2 =
      if sort cardsOrderLt tokens ≠ d.cache then 1 else 0 := by
  unfold discover calls
  simp only [select_cache]
  by_cases h1 : sort cardsOrderLt tokens ≠ d.cache <;>
    by_cases h2 : d.auth ≠ (select sort d tokens).at1 <;>
    by_cases h3 : d.sign ≠ (select sort d tokens).st <;>
    simp [h1, h2, h3]

/-- The number of `authDataChanged` signals of an iteration. -/
theorem discover_authSignals (sort : Sorter) (d : Private) (tokens : List TokenData) :
    authSignals (discover sort d tokens).2 =
      if d.auth ≠ (select sort d tokens).at1 then 1 else 0 := by
  unfold discover authSignals
  simp only [select_cache]
  by_cases h1 : sort cardsOrderLt tokens ≠ d.cache <;>
    by_cases h2 : d.auth ≠ (select sort d tokens).at1 <;>
    by_cases h3 : d.sign ≠ (select sort d tokens).st <;>
    simp [h1, h2, h3]

/-- The number of `signDataChanged` signals of an iteration. -/
theorem discover_signSignals (sort : Sorter) (d : Private) (tokens : List TokenData) :
    signSignals (discover sort d tokens).2 =
      if d.sign ≠ (select sort d tokens).st then 1 else 0 := by
  unfold discover signSignals
  simp only [select_cache]
  by_cases h1 : sort cardsOrderLt tokens ≠ d.cache <;>
    by_cases h2 : d.auth ≠ (select sort d tokens).at1 <;>
    by_cases h3 : d.sign ≠ (select sort d tokens).st <;>
    simp [h1, h2, h3]

/-- What `find?` returns, or the empty identity, is the empty identity or an element. -/
theorem find_getD_mem_or_empty (p : TokenData → Bool) (l : List TokenData) :
    (l.find? p).getD TokenData.empty = TokenData.empty ∨
      (l.find? p).getD TokenData.empty ∈ l := by
  cases h : l.find? p with
  | none => exact Or.inl rfl
  | some x => exact Or.inr (List.mem_of_find?_eq_some h)

/-- Eligibility for authentication, read off the key usage. -/
theorem isAuthCard_iff (t : TokenData) :
    isAuthCard t = true ↔
      KeyUsage.KeyEncipherment ∈ keyUsage t.cert ∨ KeyUsage.KeyAgreement ∈ keyUsage t.cert := by
  simp [isAuthCard]

/-- Eligibility for signing, read off the key usage. -/
theorem isSignCard_iff (t : TokenData) :
    isSignCard t = true ↔ KeyUsage.NonRepudiation ∈ keyUsage t.cert := by
  simp [isSignCard]

/-! ## The discovery loop: claims -/

/-- C3: from the empty engine state one completed discovery iteration over `E` stores the
sorted enumeration, selects for signing the first identity of the sorted catalog whose key
usage contains non-repudiation and for authentication the first whose key usage contains
key encipherment or key agreement (the empty identity when there is none), emits
`cacheChanged` once exactly when `E` is not empty, and `authDataChanged` and
`signDataChanged` once each exactly when `E` has an identity eligible for the role. -/
theorem discover_from_init (sort : Sorter) (hsort : sort.Reorders) (E : List TokenData) :
    (discover sort Private.init E).1.cache = sort cardsOrderLt E ∧
    (discover sort Private.init E).1.sign =
      ((sort cardsOrderLt E).find? isSignCard).getD TokenData.empty ∧
    (discover sort Private.init E).1.auth =
      ((sort cardsOrderLt E).find? isAuthCard).getD TokenData.empty ∧
    calls Event.cacheChanged (discover sort Private.init E).2 = (if E = [] then 0 else 1) ∧
    authSignals (discover sort Private.init E).2 =
      (if E.any isAuthCard = true then 1 else 0) ∧
    signSignals (discover sort Private.init E).2 =
      (if E.any isSignCard = true then 1 else 0) := by
  have hat : (select sort Private.init E).at1 =
      ((sort cardsOrderLt E).find? isAuthCard).getD TokenData.empty := by
    rw [select_at1]
    show pickFirst _ (checkSelected _ TokenData.empty) = _
    rw [checkSelected_of_isNull _ _ isNull_empty, pickFirst_empty]
  have hst : (select sort Private.init E).st =
      ((sort cardsOrderLt E).find? isSignCard).getD TokenData.empty := by
    rw [select_st]
    show pickFirst _ (checkSelected _ TokenData.empty) = _
    rw [checkSelected_of_isNull _ _ isNull_empty, pickFirst_empty]
  have hperm := hsort cardsOrderLt E
  refine ⟨?_, ?_, ?_, ?_, ?_, ?_⟩
  · rw [discover_state]
  · rw [discover_state]
    exact hst
  · rw [discover_state]
    exact hat
  · rw [discover_cacheChanged]
    show (if sort cardsOrderLt E ≠ [] then 1 else 0) = _
    by_cases hE : E = []
    · subst hE
      have : sort cardsOrderLt [] = [] := List.Perm.eq_nil hperm
      simp [this]
    · have : sort cardsOrderLt E ≠ [] := by
        intro h0
        rw [h0] at hperm
        exact hE (List.Perm.nil_eq hperm).symm
      simp [hE, this]
  · rw [discover_authSignals, hat]
    show (if TokenData.empty ≠ _ then 1 else 0) = _
    cases hany : E.any isAuthCard with
    | true =>
      have h1 := find_getD_ne_empty isAuthCard isAuthCard_empty (sort cardsOrderLt E)
        ((any_of_perm isAuthCard hperm).trans hany)
      simp [Ne.symm h1]
    | false =>
      have h1 := find_getD_of_not_any isAuthCard (sort cardsOrderLt E)
        ((any_of_perm isAuthCard hperm).trans hany)
      simp [h1]
  · rw [discover_signSignals, hst]
    show (if TokenData.empty ≠ _ then 1 else 0) = _
    cases hany : E.any isSignCard with
    | true =>
      have h1 := find_getD_ne_empty isSignCard isSignCard_empty (sort cardsOrderLt E)
        ((any_of_perm isSignCard hperm).trans hany)
      simp [Ne.symm h1]
    | false =>
      have h1 := find_getD_of_not_any isSignCard (sort cardsOrderLt E)
        ((any_of_perm isSignCard hperm).trans hany)
      simp [h1]

/-- C3, at the enumeration of the card `N1000001` with its non-repudiation identity and
its key-agreement identity: the former becomes the signing identity, the latter the
authentication identity, and each of the three notifications is emitted once. -/
theorem discover_from_init_cardA :
    (discover insertionSort Private.init [signA, authA]).1.sign = signA ∧
    (discover insertionSort Private.init [signA, authA]).1.auth = authA ∧
    calls Event.cacheChanged (discover insertionSort Private.init [signA, authA]).2 = 1 ∧
    authSignals (discover insertionSort Private.init [signA, authA]).2 = 1 ∧
    signSignals (discover insertionSort Private.init [signA, authA]).2 = 1 := by
  have h := discover_from_init insertionSort insertionSort_reorders [signA, authA]
  exact ⟨h.2.1.trans (by decide), h.2.2.1.trans (by decide), h.2.2.2.1.trans (by decide),
    h.2.2.2.2.1.trans (by decide), h.2.2.2.2.2.trans (by decide)⟩

/-- C4: after a completed discovery iteration, from any prior state and for any
enumeration, the stored catalog is the sorted enumeration, the authentication identity is
empty or an element of the stored catalog whose key usage contains key encipherment or key
agreement, and the signing identity is empty or an element of the stored catalog whose key
usage contains non-repudiation. -/
theorem discover_invariant (sort : Sorter) (d : Private) (tokens : List TokenData) :
    (discover sort d tokens).1.cache = sort cardsOrderLt tokens ∧
    ((discover sort d tokens).1.auth.isNull = true ∨
      ((discover sort d tokens).1.auth ∈ (discover sort d tokens).1.cache ∧
        (KeyUsage.KeyEncipherment ∈ keyUsage (discover sort d tokens).1.auth.cert ∨
          KeyUsage.KeyAgreement ∈ keyUsage (discover sort d tokens).1.auth.cert))) ∧
    ((discover sort d tokens).1.sign.isNull = true ∨
      ((discover sort d tokens).1.sign ∈ (discover sort d tokens).1.cache ∧
        KeyUsage.NonRepudiation ∈ keyUsage (discover sort d tokens).1.sign.cert)) := by
  rw [discover_state]
  refine ⟨rfl, ?_, ?_⟩
  · show (select sort d tokens).at1.isNull = true ∨
      ((select sort d tokens).at1 ∈ sort cardsOrderLt tokens ∧ _)
    rw [select_at1]
    rcases pickFirst_checkSelected ((sort cardsOrderLt tokens).filter isAuthCard) d.auth with
      h | h
    · exact Or.inl h
    · rw [List.mem_filter] at h
      exact Or.inr ⟨h.1, (isAuthCard_iff _).mp h.2⟩
  · show (select sort d tokens).st.isNull = true ∨
      ((select sort d tokens).st ∈ sort cardsOrderLt tokens ∧ _)
    rw [select_st]
    rcases pickFirst_checkSelected ((sort cardsOrderLt tokens).filter isSignCard) d.sign with
      h | h
    · exact Or.inl h
    · rw [List.mem_filter] at h
      exact Or.inr ⟨h.1, (isSignCard_iff _).mp h.2⟩

/-- C5, as stated, fails: with the authentication identity of card `N1000001` selected and
an enumeration that holds only the authentication identity of card `N1000002`, the slot is
not empty after the iteration but holds the identity of the other card. -/
theorem discover_removed_auth_not_empty :
    authA.isNull = false ∧ authA ∉ [authB] ∧
    (discover insertionSort ⟨authA, TokenData.empty, [authA]⟩ [authB]).1.auth = authB ∧
    (discover insertionSort ⟨authA, TokenData.empty, [authA]⟩ [authB]).1.auth.isNull =
      false := by
  decide

/-- C5, amended: when the selected authentication identity is not in the fresh
enumeration, after the iteration the slot does not hold it any more: it holds the first
identity of the sorted catalog that is eligible for authentication, and is empty when the
enumeration has no such identity; `authDataChanged` is emitted exactly once. -/
theorem discover_removed_auth (sort : Sorter) (hsort : sort.Reorders) (d : Private)
    (tokens : List TokenData) (hn : d.auth.isNull = false) (hm : d.auth ∉ tokens) :
    (discover sort d tokens).1.auth =
      ((sort cardsOrderLt tokens).find? isAuthCard).getD TokenData.empty ∧
    (discover sort d tokens).1.auth ≠ d.auth ∧
    (tokens.any isAuthCard = false → (discover sort d tokens).1.auth = TokenData.empty) ∧
    authSignals (discover sort d tokens).2 = 1 := by
  have hperm := hsort cardsOrderLt tokens
  have hms : d.auth ∉ sort cardsOrderLt tokens := fun h => hm (hperm.mem_iff.mp h)
  have hat : (select sort d tokens).at1 =
      ((sort cardsOrderLt tokens).find? isAuthCard).getD TokenData.empty := by
    rw [select_at1, checkSelected_of_not_mem _ _ hn
      (fun h => hms (List.mem_filter.mp h).1), pickFirst_empty]
  have hne : (select sort d tokens).at1 ≠ d.auth := by
    rw [hat]
    rcases find_getD_mem_or_empty isAuthCard (sort cardsOrderLt tokens) with h | h
    · rw [h]
      intro he
      rw [← he, isNull_empty] at hn
      exact Bool.noConfusion hn
    · intro he
      rw [he] at h
      exact hms h
  refine ⟨?_, ?_, ?_, ?_⟩
  · rw [discover_state]
    exact hat
  · rw [discover_state]
    exact hne
  · intro hany
    rw [discover_state]
    show (select sort d tokens).at1 = TokenData.empty
    rw [hat]
    exact find_getD_of_not_any isAuthCard _ ((any_of_perm isAuthCard hperm).trans hany)
  · rw [discover_authSignals]
    simp [Ne.symm hne]

/-- C5, amended, at a concrete input: the selected identity of card `N1000001` is gone
and the enumeration holds the identity of card `N1000002`. -/
theorem discover_removed_auth_cardB :
    (discover insertionSort ⟨authA, TokenData.empty, [authA]⟩ [authB]).1.auth ≠ authA ∧
    authSignals (discover insertionSort ⟨authA, TokenData.empty, [authA]⟩ [authB]).2 = 1 :=
  have h := discover_removed_auth insertionSort insertionSort_reorders
    ⟨authA, TokenData.empty, [authA]⟩ [authB] (by decide) (by decide)
  ⟨h.2.1, h.2.2.2⟩

/-- C6: in a completed discovery iteration `cacheChanged` is emitted once if the sorted
enumeration differs from the stored catalog and not otherwise; `authDataChanged` is emitted
once, carrying the new identity, if the authentication identity after the iteration
differs from the one before and not otherwise; likewise `signDataChanged`; and when
nothing differs nothing is emitted or called and the state is unchanged. -/
theorem discover_notifies_iff_changed (sort : Sorter) (d : Private)
    (tokens : List TokenData) :
    calls Event.cacheChanged (discover sort d tokens).2 =
      (if sort cardsOrderLt tokens ≠ d.cache then 1 else 0) ∧
    authSignals (discover sort d tokens).2 =
      (if (discover sort d tokens).1.auth ≠ d.auth then 1 else 0) ∧
    (∀ t, Event.authDataChanged t ∈ (discover sort d tokens).2 →
      t = (discover sort d tokens).1.auth) ∧
    signSignals (discover sort d tokens).2 =
      (if (discover sort d tokens).1.sign ≠ d.sign then 1 else 0) ∧
    (∀ t, Event.signDataChanged t ∈ (discover sort d tokens).2 →
      t = (discover sort d tokens).1.sign) ∧
    (sort cardsOrderLt tokens = d.cache → (discover sort d tokens).1.auth = d.auth →
      (discover sort d tokens).1.sign = d.sign →
      (discover sort d tokens).2 = [] ∧ (discover sort d tokens).1 = d) := by
  refine ⟨discover_cacheChanged sort d tokens, ?_, ?_, ?_, ?_, ?_⟩
  · rw [discover_authSignals, discover_state]
    show _ = if (select sort d tokens).at1 ≠ d.auth then 1 else 0
    by_cases h : d.auth = (select sort d tokens).at1
    · simp [h]
    · simp [h, Ne.symm h]
  · intro t ht
    rw [discover_state]
    show t = (select sort d tokens).at1
    unfold discover at ht
    simp only [List.mem_append] at ht
    rcases ht with ((ht | ht) | ht) | ht
    · split at ht <;> simp at ht
    · split at ht
      · simpa using ht
      · simp at ht
    · split at ht <;> simp at ht
    · split at ht <;> simp at ht
  · rw [discover_signSignals, discover_state]
    show _ = if (select sort d tokens).st ≠ d.sign then 1 else 0
    by_cases h : d.sign = (select sort d tokens).st
    · simp [h]
    · simp [h, Ne.symm h]
  · intro t ht
    rw [discover_state]
    show t = (select sort d tokens).st
    unfold discover at ht
    simp only [List.mem_append] at ht
    rcases ht with ((ht | ht) | ht) | ht
    · split at ht <;> simp at ht
    · split at ht <;> simp at ht
    · split at ht
      · simpa using ht
      · simp at ht
    · split at ht <;> simp at ht
  · intro hc ha hs
    rw [discover_state] at ha hs
    have ha2 : (select sort d tokens).at1 = d.auth := ha
    have hs2 : (select sort d tokens).st = d.sign := hs
    constructor
    · unfold discover
      simp [select_cache, hc, ha2, hs2]
    · rw [discover_state, ha2, hs2, hc]

/-! ## Foreground operations: lemmas -/

/-- The login loop after `n` wrong PINs and then another answer. -/
theorem loginLoop_retries (t : TokenData) (n : Nat) (s : PinStatus) (rest : List PinStatus)
    (hs : s ≠ PinStatus.PinIncorrect) :
    loginLoop t (List.replicate n PinStatus.PinIncorrect ++ s :: rest) =
      some (retryCalls t n ++ [Event.login t], s) := by
  induction n with
  | zero => simp [loginLoop, hs, retryCalls]
  | succ k ih =>
    simp only [List.replicate_succ, List.cons_append]
    unfold loginLoop
    simp [ih, retryCalls]

/-- A login loop that ends made some number of failed rounds and one last `login`, whose
answer is not `PinIncorrect`. -/
theorem loginLoop_some (t : TokenData) (l : List PinStatus) (r : List Event × PinStatus)
    (h : loginLoop t l = some r) :
    (∃ n, r.1 = retryCalls t n ++ [Event.login t]) ∧ r.2 ≠ PinStatus.PinIncorrect := by
  induction l generalizing r with
  | nil => simp [loginLoop] at h
  | cons s rest ih =>
    unfold loginLoop at h
    by_cases hs : s = PinStatus.PinIncorrect
    · rw [if_pos hs] at h
      cases hl : loginLoop t rest with
      | none =>
        rw [hl] at h
        exact Option.noConfusion h
      | some r0 =>
        rw [hl] at h
        obtain ⟨⟨n, hn⟩, h2⟩ := ih r0 hl
        have hr : r = (Event.login t :: Event.showWarning PinStatus.PinIncorrect :: r0.1,
            r0.2) := (Option.some.inj h).symm
        subst hr
        exact ⟨⟨n + 1, by simp [retryCalls, hn]⟩, h2⟩
    · simp only [hs, if_false, Option.some.injEq] at h
      subst h
      exact ⟨⟨0, by simp [retryCalls]⟩, hs⟩

/-- The login loop ends when some recorded answer is not `PinIncorrect`. -/
theorem loginLoop_isSome (t : TokenData) (l : List PinStatus)
    (h : ∃ s ∈ l, s ≠ PinStatus.PinIncorrect) : (loginLoop t l).isSome = true := by
  induction l with
  | nil => simp at h
  | cons s rest ih =>
    unfold loginLoop
    by_cases hs : s = PinStatus.PinIncorrect
    · obtain ⟨x, hx, hne⟩ := h
      have hx2 : x ∈ rest := by
        rcases List.mem_cons.mp hx with h1 | h1
        · exact absurd (h1.trans hs) hne
        · exact h1
      have := ih ⟨x, hx2, hne⟩
      simpa [hs] using this
    · simp [hs]

/-- The failed rounds hold no call of the card lock. -/
theorem calls_exclusiveUnlock_retryCalls (t : TokenData) (n : Nat) :
    calls Event.exclusiveUnlock (retryCalls t n) = 0 := by
  induction n with
  | zero => rfl
  | succ k ih =>
    unfold calls at ih ⊢
    simp [retryCalls, ih]

/-- The failed rounds hold no backend `logout`. -/
theorem calls_backendLogout_retryCalls (t : TokenData) (n : Nat) :
    calls Event.backendLogout (retryCalls t n) = 0 := by
  induction n with
  | zero => rfl
  | succ k ih =>
    unfold calls at ih ⊢
    simp [retryCalls, ih]

/-- The failed rounds hold one `login` each. -/
theorem loginCalls_retryCalls (t : TokenData) (n : Nat) :
    loginCalls (retryCalls t n) = n := by
  induction n with
  | zero => rfl
  | succ k ih =>
    unfold loginCalls at ih ⊢
    simp [retryCalls, ih]

/-- The failed rounds hold one warning each. -/
theorem warningCalls_retryCalls (t : TokenData) (n : Nat) :
    warningCalls (retryCalls t n) = n := by
  induction n with
  | zero => rfl
  | succ k ih =>
    unfold warningCalls at ih ⊢
    simp [retryCalls, ih]

/-- The failed rounds hold no backend `sign`. -/
theorem signCalls_retryCalls (t : TokenData) (n : Nat) :
    signCalls (retryCalls t n) = 0 := by
  induction n with
  | zero => rfl
  | succ k ih =>
    unfold signCalls at ih ⊢
    simp [retryCalls, ih]

/-- The trace of `sign` once the login loop has ended with `PinOK`. -/
theorem sign_of_loginLoop_ok (d : Private) (b : Backend) (method : String)
    (digest : QByteArray) (cs : List Event) (hsel : d.sign.cert.isNull = false)
    (hloop : loginLoop d.sign b.logins = some (cs, PinStatus.PinOK)) :
    ∃ res, sign true d b method digest =
      some (Event.exclusiveTryLock true :: cs ++
        [Event.backendSign (digestType method) digest, Event.exclusiveUnlock,
          Event.backendLogout, Event.reload, Event.lastError], res) := by
  unfold sign
  simp only [Bool.not_true, Bool.false_eq_true, if_false, hsel, hloop]
  by_cases h1 : b.lastError = PinStatus.PinCanceled
  · exact ⟨_, by rw [if_pos h1]⟩
  · by_cases h2 : (b.sign (digestType method) digest).isEmpty = true
    · exact ⟨_, by rw [if_neg h1, if_pos h2]⟩
    · exact ⟨_, by rw [if_neg h1, if_neg h2]⟩

/-! ## Foreground operations: claims -/

/-- C7: with the exclusive grant obtained and a signing identity selected, when `login`
answers `PinIncorrect` `n` times and then `PinOK`, `sign` returns or throws after `n`
rounds of login and warning, one more `login`, the backend `sign` call, the release of the
grant and the backend `logout`, in this order: `n + 1` logins, `n` warnings, one backend
`sign` and one backend `logout`. -/
theorem sign_after_retries (n : Nat) (d : Private) (b : Backend) (method : String)
    (digest : QByteArray) (rest : List PinStatus) (hsel : d.sign.cert.isNull = false)
    (hlog : b.logins = List.replicate n PinStatus.PinIncorrect ++ PinStatus.PinOK :: rest) :
    ∃ tr res, sign true d b method digest = some (tr, res) ∧
      tr = Event.exclusiveTryLock true :: (retryCalls d.sign n ++
        [Event.login d.sign, Event.backendSign (digestType method) digest,
          Event.exclusiveUnlock, Event.backendLogout, Event.reload, Event.lastError]) ∧
      loginCalls tr = n + 1 ∧ warningCalls tr = n ∧ signCalls tr = 1 ∧
      calls Event.backendLogout tr = 1 := by
  have hloop := loginLoop_retries d.sign n PinStatus.PinOK rest (by decide)
  rw [← hlog] at hloop
  obtain ⟨res, hres⟩ := sign_of_loginLoop_ok d b method digest _ hsel hloop
  refine ⟨_, res, hres, by simp, ?_, ?_, ?_, ?_⟩
  · have h := loginCalls_retryCalls d.sign n
    unfold loginCalls at h ⊢
    simp [List.filter_append, h]
  · have h := warningCalls_retryCalls d.sign n
    unfold warningCalls at h ⊢
    simp [List.filter_append, h]
  · have h := signCalls_retryCalls d.sign n
    unfold signCalls at h ⊢
    simp [List.filter_append, h]
  · have h := calls_backendLogout_retryCalls d.sign n
    unfold calls at h ⊢
    simp [List.count_append, h]

/-- C7 at three wrong PINs followed by the right one: four logins, three warnings, one
backend `sign` and one backend `logout`, and the backend's bytes are returned. -/
theorem sign_after_three_retries :
    ∃ tr res, sign true stateA (backendWith [PinStatus.PinIncorrect, PinStatus.PinIncorrect,
        PinStatus.PinIncorrect, PinStatus.PinOK])
        "http://www.w3.org/2001/04/xmldsig-more#rsa-sha384" [171, 205] = some (tr, res) ∧
      loginCalls tr = 4 ∧ warningCalls tr = 3 ∧ signCalls tr = 1 ∧
      calls Event.backendLogout tr = 1 := by
  obtain ⟨tr, res, h, _, h1, h2, h3, h4⟩ := sign_after_retries 3 stateA
    (backendWith [PinStatus.PinIncorrect, PinStatus.PinIncorrect, PinStatus.PinIncorrect,
      PinStatus.PinOK]) "http://www.w3.org/2001/04/xmldsig-more#rsa-sha384" [171, 205] []
    (by decide) (by decide)
  exact ⟨tr, res, h, h1, h2, h3, h4⟩

/-- C8 fails in `decrypt`: when the first `login` answers `PinCanceled`, `decrypt` releases
the exclusive grant and returns `PinCanceled` without calling `QSmartCard::reload`, while
`sign` and `key` on the same answer, and `decrypt` on `PinLocked`, do call it. -/
theorem decrypt_pinCanceled_skips_reload :
    decrypt true stateA (backendWith [PinStatus.PinCanceled]) [9] [] [] 0 [] [] [] =
      some ([Event.exclusiveTryLock true, Event.login authA, Event.exclusiveUnlock],
        ErrorCode.PinCanceled, []) ∧
    sign true stateA (backendWith [PinStatus.PinCanceled]) "" [9] =
      some ([Event.exclusiveTryLock true, Event.login signA, Event.exclusiveUnlock,
        Event.reload], Except.error ExceptionCode.PINCanceled) ∧
    key true stateA (backendWith [PinStatus.PinCanceled]) =
      some ([Event.exclusiveTryLock true, Event.login authA, Event.exclusiveUnlock,
        Event.reload], none) ∧
    decrypt true stateA (backendWith [PinStatus.PinLocked]) [9] [] [] 0 [] [] [] =
      some ([Event.exclusiveTryLock true, Event.login authA, Event.exclusiveUnlock,
        Event.reload, Event.error "" (some PinStatus.PinLocked)],
        ErrorCode.PinLocked, []) :=
  ⟨rfl, rfl, rfl, rfl⟩

/-- The calls up to the end of the login loop do not release the exclusive grant. -/
theorem calls_exclusiveUnlock_through_login (t : TokenData) (cs : List Event)
    (h : ∃ n, cs = retryCalls t n ++ [Event.login t]) (post : List Event) :
    calls Event.exclusiveUnlock (Event.exclusiveTryLock true :: cs ++ post) =
      calls Event.exclusiveUnlock post := by
  obtain ⟨n, rfl⟩ := h
  have h0 := calls_exclusiveUnlock_retryCalls t n
  unfold calls at h0 ⊢
  simp [List.count_append, h0]

/-- C9: for `sign` and `decrypt` and every backend behaviour. When `exclusiveTryLock`
fails, `sign` throws `General` and `decrypt` returns `DecryptFailed` at once, with no
`exclusiveUnlock`, no `login` and no backend operation. When it succeeds, every run that
returns or throws has called `exclusiveUnlock` exactly once. The operations do return or
throw when there is no identity selected or some `login` answer is not `PinIncorrect`. -/
theorem sign_decrypt_unlock_once (granted : Bool) (d : Private) (b : Backend)
    (method : String) (digest input out : QByteArray) (dg : QString) (keySize : Int)
    (algorithmID partyUInfo partyVInfo : QByteArray) :
    (granted = false →
      sign granted d b method digest =
        some ([Event.exclusiveTryLock false], Except.error ExceptionCode.General) ∧
      decrypt granted d b input out dg keySize algorithmID partyUInfo partyVInfo =
        some ([Event.exclusiveTryLock false,
          Event.error "Signing/decrypting is already in progress another window." none],
          ErrorCode.DecryptFailed, out)) ∧
    (granted = true →
      (∀ r, sign granted d b method digest = some r →
        calls Event.exclusiveUnlock r.1 = 1) ∧
      (∀ r, decrypt granted d b input out dg keySize algorithmID partyUInfo partyVInfo =
        some r → calls Event.exclusiveUnlock r.1 = 1)) ∧
    ((d.sign.cert.isNull = true ∨ ∃ s ∈ b.logins, s ≠ PinStatus.PinIncorrect) →
      (sign granted d b method digest).isSome = true) ∧
    ((d.auth.cert.isNull = true ∨ ∃ s ∈ b.logins, s ≠ PinStatus.PinIncorrect) →
      (decrypt granted d b input out dg keySize algorithmID partyUInfo
        partyVInfo).isSome = true) := by
  refine ⟨?_, ?_, ?_, ?_⟩
  · intro hg
    subst hg
    exact ⟨rfl, rfl⟩
  · intro hg
    subst hg
    constructor
    · intro r hr
      unfold sign at hr
      simp only [Bool.not_true, Bool.false_eq_true, if_false] at hr
      by_cases hsel : d.sign.cert.isNull = true
      · rw [if_pos hsel] at hr
        rw [← Option.some.inj hr]
        rfl
      · rw [if_neg hsel] at hr
        cases hl : loginLoop d.sign b.logins with
        | none =>
          rw [hl] at hr
          exact Option.noConfusion hr
        | some p =>
          obtain ⟨cs, status⟩ := p
          have hcs := (loginLoop_some d.sign b.logins (cs, status) hl).1
          rw [hl] at hr
          by_cases hok : status = PinStatus.PinOK
          · subst hok
            simp only at hr
            split at hr
            · rw [← Option.some.inj hr, calls_exclusiveUnlock_through_login d.sign cs hcs]
              rfl
            · split at hr
              · rw [← Option.some.inj hr, calls_exclusiveUnlock_through_login d.sign cs hcs]
                rfl
              · rw [← Option.some.inj hr, calls_exclusiveUnlock_through_login d.sign cs hcs]
                rfl
          · cases status <;> first
              | exact absurd rfl hok
              | (simp only at hr
                 rw [← Option.some.inj hr, calls_exclusiveUnlock_through_login d.sign cs hcs]
                 rfl)
    · intro r hr
      unfold decrypt at hr
      simp only [Bool.not_true, Bool.false_eq_true, if_false] at hr
      by_cases hsel : d.auth.cert.isNull = true
      · rw [if_pos hsel] at hr
        rw [← Option.some.inj hr]
        rfl
      · rw [if_neg hsel] at hr
        cases hl : loginLoop d.auth b.logins with
        | none =>
          rw [hl] at hr
          exact Option.noConfusion hr
        | some p =>
          obtain ⟨cs, status⟩ := p
          have hcs := (loginLoop_some d.auth b.logins (cs, status) hl).1
          rw [hl] at hr
          by_cases hok : status = PinStatus.PinOK
          · subst hok
            simp only at hr
            repeat' split at hr
            all_goals
              rw [← Option.some.inj hr]
              try simp only [List.append_assoc]
              rw [calls_exclusiveUnlock_through_login d.auth cs hcs]
              rfl
          · cases status <;> first
              | exact absurd rfl hok
              | (simp only at hr
                 rw [← Option.some.inj hr, calls_exclusiveUnlock_through_login d.auth cs hcs]
                 rfl)
  · intro h
    unfold sign
    cases granted with
    | false => rfl
    | true =>
      simp only [Bool.not_true, Bool.false_eq_true, if_false]
      by_cases hsel : d.sign.cert.isNull = true
      · rw [if_pos hsel]
        rfl
      · rw [if_neg hsel]
        have hl := loginLoop_isSome d.sign b.logins (h.resolve_left hsel)
        cases hp : loginLoop d.sign b.logins with
        | none =>
          rw [hp] at hl
          exact Bool.noConfusion hl
        | some p =>
          obtain ⟨cs, status⟩ := p
          cases status <;> simp only <;> (repeat' split) <;> rfl
  · intro h
    unfold decrypt
    cases granted with
    | false => rfl
    | true =>
      simp only [Bool.not_true, Bool.false_eq_true, if_false]
      by_cases hsel : d.auth.cert.isNull = true
      · rw [if_pos hsel]
        rfl
      · rw [if_neg hsel]
        have hl := loginLoop_isSome d.auth b.logins (h.resolve_left hsel)
        cases hp : loginLoop d.auth b.logins with
        | none =>
          rw [hp] at hl
          exact Bool.noConfusion hl
        | some p =>
          obtain ⟨cs, status⟩ := p
          cases status <;> simp only <;> (repeat' split) <;> rfl

/-- The result of `key` when the login loop ends with an answer other than `PinOK`. -/
theorem key_of_loginLoop_fail (d : Private) (b : Backend) (cs : List Event) (s : PinStatus)
    (hloop : loginLoop d.auth b.logins = some (cs, s)) (hok : s ≠ PinStatus.PinOK) :
    key true d b =
      some (Event.exclusiveTryLock true :: cs ++ [Event.exclusiveUnlock, Event.reload],
        none) := by
  unfold key
  cases s <;> first
    | exact absurd rfl hok
    | simp only [Bool.not_true, Bool.false_eq_true, if_false, hloop]

/-- The result of `key` when the login loop ends with `PinOK`. -/
theorem key_of_loginLoop_ok (d : Private) (b : Backend) (cs : List Event)
    (hloop : loginLoop d.auth b.logins = some (cs, PinStatus.PinOK)) :
    key true d b =
      some (Event.exclusiveTryLock true :: cs ++
        (if (publicKey d.auth.cert).handle = false then [Event.exclusiveUnlock]
          else if (publicKey d.auth.cert).algorithm = KeyAlgorithm.Ec then
            [Event.setEcMethod]
          else [Event.setRsaMethod]), some (publicKey d.auth.cert)) := by
  unfold key
  simp only [Bool.not_true, Bool.false_eq_true, if_false, hloop]
  cases hh : (publicKey d.auth.cert).handle with
  | false => simp
  | true =>
    by_cases hec : (publicKey d.auth.cert).algorithm = KeyAlgorithm.Ec
    · simp [hec]
    · simp [hec]

/-- C10, as stated, fails: when `login` answers `PinOK` and the public key of the
authentication certificate has a native handle, `key` returns the key without having
called `exclusiveUnlock`. -/
theorem key_with_handle_keeps_grant :
    (publicKey stateA.auth.cert).handle = true ∧
    key true stateA (backendWith [PinStatus.PinOK]) =
      some ([Event.exclusiveTryLock true, Event.login authA, Event.setEcMethod],
        some (publicKey authA.cert)) ∧
    calls Event.exclusiveUnlock
      [Event.exclusiveTryLock true, Event.login authA, Event.setEcMethod] = 0 :=
  ⟨rfl, rfl, rfl⟩

/-- C10, amended: with the exclusive grant acquired and a login loop that ends with the
answer `s`, `key` returns after exactly one `exclusiveUnlock` on every path but one: when
`s` is `PinOK` and the public key has a native handle it returns that key with no
`exclusiveUnlock`, the grant still held; `logout` then releases it, with exactly one
`exclusiveUnlock`. -/
theorem key_unlock (d : Private) (b : Backend) (n : Nat) (s : PinStatus)
    (rest : List PinStatus) (hs : s ≠ PinStatus.PinIncorrect)
    (hlog : b.logins = List.replicate n PinStatus.PinIncorrect ++ s :: rest) :
    ∃ r, key true d b = some r ∧
      calls Event.exclusiveUnlock r.1 =
        (if s = PinStatus.PinOK ∧ (publicKey d.auth.cert).handle = true then 0 else 1) ∧
      (s = PinStatus.PinOK → (publicKey d.auth.cert).handle = true →
        r.2 = some (publicKey d.auth.cert)) ∧
      calls Event.exclusiveUnlock logout = 1 := by
  have hloop := loginLoop_retries d.auth n s rest hs
  rw [← hlog] at hloop
  have hcs : ∃ m, retryCalls d.auth n ++ [Event.login d.auth] =
      retryCalls d.auth m ++ [Event.login d.auth] := ⟨n, rfl⟩
  by_cases hok : s = PinStatus.PinOK
  · subst hok
    refine ⟨_, key_of_loginLoop_ok d b _ hloop, ?_, fun _ _ => rfl, rfl⟩
    rw [calls_exclusiveUnlock_through_login d.auth _ hcs]
    cases hh : (publicKey d.auth.cert).handle with
    | false => simp [calls]
    | true =>
      by_cases hec : (publicKey d.auth.cert).algorithm = KeyAlgorithm.Ec
      · simp [hec, calls]
      · simp [hec, calls]
  · refine ⟨_, key_of_loginLoop_fail d b _ s hloop hok, ?_, fun h => absurd h hok, rfl⟩
    rw [calls_exclusiveUnlock_through_login d.auth _ hcs]
    simp [hok, calls]

/-- C10, amended, at two inputs: after one wrong PIN and then `PinLocked`, `key` has
released the grant once; after `PinOK` on a key with a native handle it has not, and
returns the key. -/
theorem key_unlock_cards :
    (∃ r, key true stateA (backendWith [PinStatus.PinIncorrect, PinStatus.PinLocked]) =
        some r ∧ calls Event.exclusiveUnlock r.1 = 1) ∧
    (∃ r, key true stateA (backendWith [PinStatus.PinOK]) = some r ∧
        calls Event.exclusiveUnlock r.1 = 0 ∧ r.2 = some (publicKey authA.cert)) := by
  obtain ⟨r1, h1, c1, _, _⟩ := key_unlock stateA
    (backendWith [PinStatus.PinIncorrect, PinStatus.PinLocked]) 1 PinStatus.PinLocked []
    (by decide) rfl
  obtain ⟨r2, h2, c2, k2, _⟩ := key_unlock stateA (backendWith [PinStatus.PinOK]) 0
    PinStatus.PinOK [] (by decide) rfl
  exact ⟨⟨r1, h1, c1.trans (by decide)⟩, ⟨r2, h2, c2.trans (by decide), k2 rfl rfl⟩⟩

/-! ## The discovery loop: the shared grant and the card-presence refresh -/

/-- The body of an iteration does not touch the shared grant. -/
theorem readUnlocks_discover (sort : Sorter) (d : Private) (tokens : List TokenData) :
    readUnlocks (discover sort d tokens).2 = 0 := by
  unfold discover readUnlocks
  by_cases h1 : (select sort d tokens).cache ≠ d.cache <;>
    by_cases h2 : d.auth ≠ (select sort d tokens).at1 <;>
    by_cases h3 : d.sign ≠ (select sort d tokens).st <;>
    simp [h1, h2, h3]

/-- C11 fails when the PKCS#11 module does not load: the iteration has obtained the shared
grant, reports the error and `run` returns, and `readUnlock` has not been called. On the
other paths with the grant obtained `readUnlock` is called exactly once, and without the
grant it is not called. -/
theorem runIteration_module_failure_keeps_grant (sort : Sorter) (d : Private)
    (tokens : List TokenData) :
    runIteration sort true (some false) d tokens =
      (d, [Event.readTryLock true, Event.pkcs11Reload false,
        Event.error "Failed to load PKCS#11 module" none], true) ∧
    readUnlocks (runIteration sort true (some false) d tokens).2.1 = 0 ∧
    readUnlocks (runIteration sort true (some true) d tokens).2.1 = 1 ∧
    readUnlocks (runIteration sort true none d tokens).2.1 = 1 ∧
    (∀ pkcs11, readUnlocks (runIteration sort false pkcs11 d tokens).2.1 = 0) := by
  have h0 := readUnlocks_discover sort d tokens
  unfold readUnlocks at h0
  refine ⟨rfl, rfl, ?_, ?_, fun _ => rfl⟩
  · unfold runIteration readUnlocks
    simp [List.count_append, h0]
  · unfold runIteration readUnlocks
    simp [List.count_append, h0]

/-! ## sign: digest type and result -/

/-- The calls up to the end of the login loop hold no backend `sign`. -/
theorem not_mem_backendSign_through_login (t : TokenData) (n : Nat) (ty : Nat)
    (dg : QByteArray) :
    Event.backendSign ty dg ∉
      Event.exclusiveTryLock true :: (retryCalls t n ++ [Event.login t]) := by
  induction n with
  | zero => simp [retryCalls]
  | succ k ih =>
    simp only [retryCalls, List.cons_append, List.mem_cons, not_or] at ih ⊢
    exact ⟨by simp, by simp, by simp, ih.2⟩

/-- Every backend `sign` call of `sign` carries the digest type of the method and the
caller's digest. -/
theorem sign_backendSign_args (granted : Bool) (d : Private) (b : Backend)
    (method : String) (digest : QByteArray) (r : List Event × Except ExceptionCode QByteArray)
    (hr : sign granted d b method digest = some r) (ty : Nat) (dg : QByteArray)
    (hmem : Event.backendSign ty dg ∈ r.1) : ty = digestType method ∧ dg = digest := by
  unfold sign at hr
  cases granted with
  | false =>
    simp only [Bool.not_false, if_true] at hr
    rw [← Option.some.inj hr] at hmem
    simp at hmem
  | true =>
    simp only [Bool.not_true, Bool.false_eq_true, if_false] at hr
    by_cases hsel : d.sign.cert.isNull = true
    · rw [if_pos hsel] at hr
      rw [← Option.some.inj hr] at hmem
      simp at hmem
    · rw [if_neg hsel] at hr
      cases hl : loginLoop d.sign b.logins with
      | none =>
        rw [hl] at hr
        exact Option.noConfusion hr
      | some p =>
        obtain ⟨cs, status⟩ := p
        obtain ⟨n, hn⟩ := (loginLoop_some d.sign b.logins (cs, status) hl).1
        have hn2 : cs = retryCalls d.sign n ++ [Event.login d.sign] := hn
        subst hn2
        have hpre := not_mem_backendSign_through_login d.sign n ty dg
        rw [hl] at hr
        by_cases hok : status = PinStatus.PinOK
        · subst hok
          simp only at hr
          repeat' split at hr
          all_goals
            rw [← Option.some.inj hr] at hmem
            rcases List.mem_append.mp hmem with h | h
            · exact absurd h hpre
            · simp at h
              exact h
        · cases status <;> first
            | exact absurd rfl hok
            | (simp only at hr
               rw [← Option.some.inj hr] at hmem
               rcases List.mem_append.mp hmem with h | h
               · exact absurd h hpre
               · simp at h)

/-- C12: the digest type `sign` hands to the backend is a function of the method URI
alone: SHA-224, SHA-256, SHA-384 and SHA-512 for the RSA and the ECDSA URI of that digest,
and SHA-256 for every other string, such as the empty string, a URI in upper case or one
without the leading part; and every backend `sign` call of `sign` carries that type. -/
theorem digestType_total (method : String) :
    digestType "http://www.w3.org/2001/04/xmldsig-more#rsa-sha224" = NID_sha224 ∧
    digestType "http://www.w3.org/2001/04/xmldsig-more#ecdsa-sha224" = NID_sha224 ∧
    digestType "http://www.w3.org/2001/04/xmldsig-more#rsa-sha256" = NID_sha256 ∧
    digestType "http://www.w3.org/2001/04/xmldsig-more#ecdsa-sha256" = NID_sha256 ∧
    digestType "http://www.w3.org/2001/04/xmldsig-more#rsa-sha384" = NID_sha384 ∧
    digestType "http://www.w3.org/2001/04/xmldsig-more#ecdsa-sha384" = NID_sha384 ∧
    digestType "http://www.w3.org/2001/04/xmldsig-more#rsa-sha512" = NID_sha512 ∧
    digestType "http://www.w3.org/2001/04/xmldsig-more#ecdsa-sha512" = NID_sha512 ∧
    (method ∉ ["http://www.w3.org/2001/04/xmldsig-more#rsa-sha224",
        "http://www.w3.org/2001/04/xmldsig-more#ecdsa-sha224",
        "http://www.w3.org/2001/04/xmldsig-more#rsa-sha256",
        "http://www.w3.org/2001/04/xmldsig-more#ecdsa-sha256",
        "http://www.w3.org/2001/04/xmldsig-more#rsa-sha384",
        "http://www.w3.org/2001/04/xmldsig-more#ecdsa-sha384",
        "http://www.w3.org/2001/04/xmldsig-more#rsa-sha512",
        "http://www.w3.org/2001/04/xmldsig-more#ecdsa-sha512"] →
      digestType method = NID_sha256) ∧
    digestType "" = NID_sha256 ∧
    digestType "HTTP://WWW.W3.ORG/2001/04/XMLDSIG-MORE#RSA-SHA384" = NID_sha256 ∧
    digestType "#rsa-sha384" = NID_sha256 ∧
    (∀ granted d b digest r, sign granted d b method digest = some r →
      ∀ ty dg, Event.backendSign ty dg ∈ r.1 → ty = digestType method ∧ dg = digest) := by
  refine ⟨by decide, by decide, by decide, by decide, by decide, by decide, by decide,
    by decide, ?_, by decide, by decide, by decide, ?_⟩
  · intro h
    simp only [List.mem_cons, List.mem_singleton, List.not_mem_nil, or_false, not_or] at h
    obtain ⟨h1, h2, h3, h4, h5, h6, h7, h8⟩ := h
    unfold digestType
    simp [h1, h2, h3, h4, h5, h6, h7, h8]
  · intro granted d b digest r hr ty dg hmem
    exact sign_backendSign_args granted d b method digest r hr ty dg hmem

/-- The outcome of `sign` once the login loop has ended with `PinOK`. -/
theorem sign_eq_of_loginLoop_ok (d : Private) (b : Backend) (method : String)
    (digest : QByteArray) (cs : List Event) (hsel : d.sign.cert.isNull = false)
    (hloop : loginLoop d.sign b.logins = some (cs, PinStatus.PinOK)) :
    sign true d b method digest =
      some (Event.exclusiveTryLock true :: cs ++
        [Event.backendSign (digestType method) digest, Event.exclusiveUnlock,
          Event.backendLogout, Event.reload, Event.lastError],
        if b.lastError = PinStatus.PinCanceled then Except.error ExceptionCode.PINCanceled
        else if (b.sign (digestType method) digest).isEmpty = true then
          Except.error ExceptionCode.General
        else Except.ok (b.sign (digestType method) digest)) := by
  unfold sign
  simp only [Bool.not_true, Bool.false_eq_true, if_false, hsel, hloop]
  by_cases h1 : b.lastError = PinStatus.PinCanceled
  · rw [if_pos h1, if_pos h1]
  · by_cases h2 : (b.sign (digestType method) digest).isEmpty = true
    · rw [if_neg h1, if_pos h2, if_neg h1, if_pos h2]
    · rw [if_neg h1, if_neg h2, if_neg h1, if_neg h2]

/-- C13: after a successful PIN login `sign` calls the backend once with the digest type
of the method and the caller's digest, and then throws `PINCanceled` if the backend's
`lastError` is `PinCanceled`, otherwise throws `General` if the backend's result is empty,
and otherwise returns exactly the backend's result; so it returns normally if and only if
the result is not empty and `lastError` is not `PinCanceled`. -/
theorem sign_outcome (n : Nat) (d : Private) (b : Backend) (method : String)
    (digest : QByteArray) (rest : List PinStatus) (hsel : d.sign.cert.isNull = false)
    (hlog : b.logins = List.replicate n PinStatus.PinIncorrect ++ PinStatus.PinOK :: rest) :
    ∃ tr res, sign true d b method digest = some (tr, res) ∧
      signCalls tr = 1 ∧ Event.backendSign (digestType method) digest ∈ tr ∧
      res = (if b.lastError = PinStatus.PinCanceled then
          Except.error ExceptionCode.PINCanceled
        else if b.sign (digestType method) digest = [] then
          Except.error ExceptionCode.General
        else Except.ok (b.sign (digestType method) digest)) ∧
      ((∃ bytes, res = Except.ok bytes) ↔
        (b.sign (digestType method) digest ≠ [] ∧ b.lastError ≠ PinStatus.PinCanceled)) ∧
      (∀ bytes, res = Except.ok bytes → bytes = b.sign (digestType method) digest) := by
  have hloop := loginLoop_retries d.sign n PinStatus.PinOK rest (by decide)
  rw [← hlog] at hloop
  refine ⟨_, _, sign_eq_of_loginLoop_ok d b method digest _ hsel hloop, ?_, by simp, ?_, ?_,
    ?_⟩
  · have h := signCalls_retryCalls d.sign n
    unfold signCalls at h ⊢
    simp [List.filter_append, h]
  · by_cases h1 : b.lastError = PinStatus.PinCanceled
    · simp [h1]
    · by_cases h2 : b.sign (digestType method) digest = []
      · simp [h1, h2]
      · simp [h1, h2]
  · by_cases h1 : b.lastError = PinStatus.PinCanceled
    · simp [h1]
    · by_cases h2 : b.sign (digestType method) digest = []
      · simp [h1, h2]
      · simp [h1, h2]
  · intro bytes
    by_cases h1 : b.lastError = PinStatus.PinCanceled
    · simp [h1]
    · by_cases h2 : b.sign (digestType method) digest = []
      · simp [h1, h2]
      · simp only [h1, if_false, List.isEmpty_iff, h2]
        intro h
        injection h with h
        exact h.symm

/-- C13 at a backend that returns three bytes after one wrong PIN: `sign` returns these
bytes. -/
theorem sign_outcome_bytes :
    ∃ tr, sign true stateA (backendWith [PinStatus.PinIncorrect, PinStatus.PinOK])
      "http://www.w3.org/2001/04/xmldsig-more#ecdsa-sha256" [171, 205] =
        some (tr, Except.ok [1, 2, 3]) := by
  obtain ⟨tr, res, h, _, _, hres, _, _⟩ := sign_outcome 1 stateA
    (backendWith [PinStatus.PinIncorrect, PinStatus.PinOK])
    "http://www.w3.org/2001/04/xmldsig-more#ecdsa-sha256" [171, 205] [] (by decide) rfl
  refine ⟨tr, ?_⟩
  rw [h, hres]
  rfl

/-! ## decrypt: dispatch and result -/

/-- The failed rounds hold no backend `decrypt` or `deriveConcatKDF`. -/
theorem decryptCalls_retryCalls (t : TokenData) (n : Nat) :
    decryptCalls (retryCalls t n) = 0 := by
  induction n with
  | zero => rfl
  | succ k ih =>
    unfold decryptCalls at ih ⊢
    simp [retryCalls, ih]

/-- The calls up to the end of the login loop hold no backend `decrypt` or
`deriveConcatKDF`. -/
theorem decryptCalls_through_login (t : TokenData) (n : Nat) (post : List Event) :
    decryptCalls (Event.exclusiveTryLock true :: (retryCalls t n ++ [Event.login t]) ++ post) =
      decryptCalls post := by
  have h := decryptCalls_retryCalls t n
  unfold decryptCalls at h ⊢
  simp [List.filter_append, h]

/-- The outcome of `decrypt` once the login loop has ended with `PinOK`. -/
theorem decrypt_eq_of_loginLoop_ok (d : Private) (b : Backend) (input out : QByteArray)
    (dg : QString) (keySize : Int) (algorithmID partyUInfo partyVInfo : QByteArray)
    (cs : List Event) (hsel : d.auth.cert.isNull = false)
    (hloop : loginLoop d.auth b.logins = some (cs, PinStatus.PinOK)) :
    decrypt true d b input out dg keySize algorithmID partyUInfo partyVInfo =
      some (Event.exclusiveTryLock true :: cs ++
        ([if (publicKey d.auth.cert).algorithm = KeyAlgorithm.Rsa then
            Event.backendDecrypt input
          else Event.backendDeriveConcatKDF input dg keySize algorithmID partyUInfo
            partyVInfo,
          Event.exclusiveUnlock, Event.backendLogout, Event.reload, Event.lastError] ++
        (if b.lastError ≠ PinStatus.PinCanceled ∧
            (if (publicKey d.auth.cert).algorithm = KeyAlgorithm.Rsa then b.decrypt input
              else b.deriveConcatKDF input dg keySize algorithmID partyUInfo partyVInfo) = []
          then [Event.error "Failed to decrypt document" none] else [])),
        if b.lastError = PinStatus.PinCanceled then ErrorCode.PinCanceled
        else if (if (publicKey d.auth.cert).algorithm = KeyAlgorithm.Rsa then b.decrypt input
            else b.deriveConcatKDF input dg keySize algorithmID partyUInfo partyVInfo) = []
          then ErrorCode.DecryptFailed
        else ErrorCode.DecryptOK,
        if (publicKey d.auth.cert).algorithm = KeyAlgorithm.Rsa then b.decrypt input
        else b.deriveConcatKDF input dg keySize algorithmID partyUInfo partyVInfo) := by
  unfold decrypt
  simp only [Bool.not_true, Bool.false_eq_true, if_false, hsel, hloop]
  by_cases hrsa : (publicKey d.auth.cert).algorithm = KeyAlgorithm.Rsa
  · by_cases h1 : b.lastError = PinStatus.PinCanceled
    · simp [hrsa, h1]
    · by_cases h2 : b.decrypt input = []
      · simp [hrsa, h1, h2]
      · simp [hrsa, h1, h2]
  · by_cases h1 : b.lastError = PinStatus.PinCanceled
    · simp [hrsa, h1]
    · by_cases h2 : b.deriveConcatKDF input dg keySize algorithmID partyUInfo partyVInfo = []
      · simp [hrsa, h1, h2]
      · simp [hrsa, h1, h2]

/-- The outcome of `decrypt` once the login loop has ended with another answer than
`PinOK`. -/
theorem decrypt_eq_of_loginLoop_fail (d : Private) (b : Backend) (input out : QByteArray)
    (dg : QString) (keySize : Int) (algorithmID partyUInfo partyVInfo : QByteArray)
    (cs : List Event) (s : PinStatus) (hsel : d.auth.cert.isNull = false)
    (hloop : loginLoop d.auth b.logins = some (cs, s)) (hok : s ≠ PinStatus.PinOK) :
    decrypt true d b input out dg keySize algorithmID partyUInfo partyVInfo =
      some (Event.exclusiveTryLock true :: cs ++
        (if s = PinStatus.PinCanceled then [Event.exclusiveUnlock]
          else if s = PinStatus.PinLocked then
            [Event.exclusiveUnlock, Event.reload, Event.error "" (some PinStatus.PinLocked)]
          else [Event.exclusiveUnlock, Event.reload,
            Event.error "Failed to login token" (some s)]),
        if s = PinStatus.PinCanceled then ErrorCode.PinCanceled
        else if s = PinStatus.PinLocked then ErrorCode.PinLocked
        else ErrorCode.DecryptFailed, out) := by
  unfold decrypt
  cases s <;> first
    | exact absurd rfl hok
    | simp [hsel, hloop]

/-- C14: with the exclusive grant and an authentication certificate selected, when the
login loop ends with the answer `s`. For `PinOK`, `decrypt` makes exactly one backend
call: `decrypt(in)` when the key of the authentication certificate is RSA, otherwise
`deriveConcatKDF` with the caller's arguments unchanged; the output is that call's result,
and the code is `PinCanceled` if `lastError` is `PinCanceled`, otherwise `DecryptOK` for a
non-empty and `DecryptFailed` for an empty output. For `PinCanceled` the code is
`PinCanceled`, for `PinLocked` it is `PinLocked`, for any other answer `DecryptFailed`,
each without a backend `decrypt` or `deriveConcatKDF` call. -/
theorem decrypt_outcome (n : Nat) (d : Private) (b : Backend) (input out : QByteArray)
    (dg : QString) (keySize : Int) (algorithmID partyUInfo partyVInfo : QByteArray)
    (s : PinStatus) (rest : List PinStatus) (hsel : d.auth.cert.isNull = false)
    (hs : s ≠ PinStatus.PinIncorrect)
    (hlog : b.logins = List.replicate n PinStatus.PinIncorrect ++ s :: rest) :
    ∃ tr code res,
      decrypt true d b input out dg keySize algorithmID partyUInfo partyVInfo =
        some (tr, code, res) ∧
      (s = PinStatus.PinOK →
        decryptCalls tr = 1 ∧
        ((publicKey d.auth.cert).algorithm = KeyAlgorithm.Rsa →
          Event.backendDecrypt input ∈ tr ∧ res = b.decrypt input) ∧
        ((publicKey d.auth.cert).algorithm ≠ KeyAlgorithm.Rsa →
          Event.backendDeriveConcatKDF input dg keySize algorithmID partyUInfo partyVInfo ∈ tr ∧
          res = b.deriveConcatKDF input dg keySize algorithmID partyUInfo partyVInfo) ∧
        code = (if b.lastError = PinStatus.PinCanceled then ErrorCode.PinCanceled
          else if res = [] then ErrorCode.DecryptFailed else ErrorCode.DecryptOK)) ∧
      (s = PinStatus.PinCanceled → code = ErrorCode.PinCanceled ∧ decryptCalls tr = 0) ∧
      (s = PinStatus.PinLocked → code = ErrorCode.PinLocked ∧ decryptCalls tr = 0) ∧
      (s ≠ PinStatus.PinOK → s ≠ PinStatus.PinCanceled → s ≠ PinStatus.PinLocked →
        code = ErrorCode.DecryptFailed ∧ decryptCalls tr = 0) := by
  have hloop := loginLoop_retries d.auth n s rest hs
  rw [← hlog] at hloop
  by_cases hok : s = PinStatus.PinOK
  · subst hok
    refine ⟨_, _, _, decrypt_eq_of_loginLoop_ok d b input out dg keySize algorithmID
      partyUInfo partyVInfo _ hsel hloop, ?_, ?_, ?_, ?_⟩
    · intro _
      refine ⟨?_, ?_, ?_, rfl⟩
      · rw [decryptCalls_through_login]
        by_cases hrsa : (publicKey d.auth.cert).algorithm = KeyAlgorithm.Rsa <;>
          by_cases h1 : b.lastError = PinStatus.PinCanceled <;>
          by_cases h2 : b.decrypt input = [] <;>
          by_cases h3 : b.deriveConcatKDF input dg keySize algorithmID partyUInfo
            partyVInfo = [] <;>
          simp [decryptCalls, hrsa, h1, h2, h3]
      · intro hrsa
        simp [hrsa]
      · intro hrsa
        simp [hrsa]
    · intro h
      exact absurd h (by decide)
    · intro h
      exact absurd h (by decide)
    · intro h
      exact absurd rfl h
  · refine ⟨_, _, _, decrypt_eq_of_loginLoop_fail d b input out dg keySize algorithmID
      partyUInfo partyVInfo _ s hsel hloop hok, ?_, ?_, ?_, ?_⟩
    · intro h
      exact absurd h hok
    · intro h
      subst h
      refine ⟨by simp, ?_⟩
      rw [decryptCalls_through_login]
      simp [decryptCalls]
    · intro h
      subst h
      refine ⟨by simp, ?_⟩
      rw [decryptCalls_through_login]
      simp [decryptCalls]
    · intro _ h2 h3
      refine ⟨by simp [h2, h3], ?_⟩
      rw [decryptCalls_through_login]
      simp [decryptCalls, h2, h3]

/-- C14 at two inputs: with an elliptic-curve key and the answer `PinOK`, `decrypt` calls
`deriveConcatKDF` and returns `DecryptOK` with its byte; with the answer `PinLocked` after
one wrong PIN it returns `PinLocked` without a backend call. -/
theorem decrypt_outcome_cards :
    (∃ tr, decrypt true stateA (backendWith [PinStatus.PinOK]) [9] [] [] 256 [] [] [] =
        some (tr, ErrorCode.DecryptOK, [5]) ∧
      Event.backendDeriveConcatKDF [9] [] 256 [] [] [] ∈ tr) ∧
    (∃ tr res, decrypt true stateA
        (backendWith [PinStatus.PinIncorrect, PinStatus.PinLocked]) [9] [] [] 256 [] [] [] =
        some (tr, ErrorCode.PinLocked, res) ∧ decryptCalls tr = 0) := by
  obtain ⟨tr1, c1, r1, h1, hok1, _, _, _⟩ := decrypt_outcome 0 stateA
    (backendWith [PinStatus.PinOK]) [9] [] [] 256 [] [] [] PinStatus.PinOK []
    (by decide) (by decide) rfl
  obtain ⟨tr2, c2, r2, h2, _, _, hl2, _⟩ := decrypt_outcome 1 stateA
    (backendWith [PinStatus.PinIncorrect, PinStatus.PinLocked]) [9] [] [] 256 [] [] []
    PinStatus.PinLocked [] (by decide) (by decide) rfl
  obtain ⟨_, _, hec, hcode⟩ := hok1 rfl
  obtain ⟨hmem, hres⟩ := hec (by decide)
  have hres1 : r1 = [5] := hres
  subst hres1
  have hc1 : c1 = ErrorCode.DecryptOK := hcode.trans (by decide)
  subst hc1
  obtain ⟨hc2, hn2⟩ := hl2 rfl
  subst hc2
  exact ⟨⟨tr1, h1, hmem⟩, ⟨tr2, r2, h2, hn2⟩⟩

/-! ## selectCard -/

/-- Without another identity on the card of `token` the loop changes nothing. -/
theorem selectOther_of_no_sibling (isSign : Bool) (token : TokenData) (d : Private)
    (l : List TokenData) (h : ∀ o ∈ l, o = token ∨ o.card ≠ token.card) :
    selectOther isSign token d l = (d, []) := by
  induction l with
  | nil => rfl
  | cons x xs ih =>
    unfold selectOther
    rw [if_pos (h x (List.mem_cons_self x xs))]
    exact ih fun o ho => h o (List.mem_cons_of_mem x ho)

/-- With another identity on the card of `token` in the list, the loop puts one such
identity of the list into the slot of the other role and leaves the other slot alone. -/
theorem selectOther_of_sibling (isSign : Bool) (token : TokenData) (d : Private)
    (l : List TokenData) (h : ∃ o ∈ l, o ≠ token ∧ o.card = token.card) :
    ∃ o ∈ l, o ≠ token ∧ o.card = token.card ∧
      selectOther isSign token d l =
        (if isSign then (⟨o, d.sign, d.cache⟩, [Event.authDataChanged o])
          else (⟨d.auth, o, d.cache⟩, [Event.signDataChanged o])) := by
  induction l with
  | nil =>
    obtain ⟨o, ho, _⟩ := h
    exact absurd ho (List.not_mem_nil o)
  | cons x xs ih =>
    by_cases hx : x = token ∨ x.card ≠ token.card
    · have hrest : ∃ o ∈ xs, o ≠ token ∧ o.card = token.card := by
        obtain ⟨o, ho, hne, hc⟩ := h
        rcases List.mem_cons.mp ho with h1 | h1
        · subst h1
          rcases hx with h2 | h2
          · exact absurd h2 hne
          · exact absurd hc h2
        · exact ⟨o, h1, hne, hc⟩
      obtain ⟨o, ho, hne, hc, heq⟩ := ih hrest
      refine ⟨o, List.mem_cons_of_mem x ho, hne, hc, ?_⟩
      unfold selectOther
      rw [if_pos hx]
      exact heq
    · have hx2 : x ≠ token ∧ x.card = token.card := by
        constructor
        · exact fun h1 => hx (Or.inl h1)
        · exact by_contra fun h1 => hx (Or.inr h1)
      refine ⟨x, List.mem_cons_self x xs, hx2.1, hx2.2, ?_⟩
      unfold selectOther
      rw [if_neg hx]

/-- C15: when `T` has non-repudiation in its key usage and the catalog holds another
identity on the card of `T` that is eligible for authentication, after `selectCard(T)` the
signing identity is `T` and the authentication identity is a cached identity on the card of
`T`. -/
theorem selectCard_sign_same_device (d : Private) (T : TokenData)
    (hT : KeyUsage.NonRepudiation ∈ keyUsage T.cert)
    (hsib : ∃ o ∈ d.cache, o ≠ T ∧ o.card = T.card ∧ isAuthCard o = true) :
    (selectCard d T).1.sign = T ∧
    (selectCard d T).1.auth.card = T.card ∧
    (selectCard d T).1.auth ∈ d.cache := by
  have hsign : (keyUsage T.cert).contains KeyUsage.NonRepudiation = true := by
    simpa using hT
  obtain ⟨o, ho, hne, hc, _⟩ := hsib
  obtain ⟨o2, ho2, _, hc2, heq⟩ := selectOther_of_sibling true T ⟨d.auth, T, d.cache⟩
    d.cache ⟨o, ho, hne, hc⟩
  unfold selectCard
  simp only [hsign, if_true]
  rw [heq]
  exact ⟨rfl, hc2, ho2⟩

/-- C15 at the card `N1000001`: selecting its signing identity makes its authentication
identity the active one. -/
theorem selectCard_sign_cardA :
    (selectCard ⟨TokenData.empty, TokenData.empty, [signA, authA]⟩ signA).1.sign = signA ∧
    (selectCard ⟨TokenData.empty, TokenData.empty, [signA, authA]⟩ signA).1.auth.card =
      signA.card :=
  have h := selectCard_sign_same_device ⟨TokenData.empty, TokenData.empty, [signA, authA]⟩
    signA (by decide) ⟨authA, by decide, by decide, by decide, by decide⟩
  ⟨h.1, h.2.1⟩

/-- C16, as stated, fails: with two signing identities of one card in the catalog and none
that is eligible for authentication, `selectCard` of the first puts the second, which is
not eligible for authentication, into the authentication slot. -/
theorem selectCard_promotes_ineligible :
    (∀ o ∈ [signA, signA2], isAuthCard o = false) ∧
    (selectCard ⟨TokenData.empty, TokenData.empty, [signA, signA2]⟩ signA).1.auth = signA2 ∧
    signA2 ≠ TokenData.empty := by
  decide

/-- C16, amended: `selectCard(T)` puts `T` into the slot of its role (signing when its key
usage has non-repudiation, authentication otherwise) and changes the slot of the other
role only by putting there a cached identity that is on the card of `T` and is not `T`,
whatever its key usage; when the catalog holds no such identity the other slot is left
unchanged, and when it holds one the other slot holds one afterwards. -/
theorem selectCard_other_slot (d : Private) (T : TokenData) :
    (isSignCard T = true →
      (selectCard d T).1.sign = T ∧
      ((selectCard d T).1.auth ≠ d.auth →
        (selectCard d T).1.auth ∈ d.cache ∧ (selectCard d T).1.auth ≠ T ∧
          (selectCard d T).1.auth.card = T.card) ∧
      ((∀ o ∈ d.cache, o = T ∨ o.card ≠ T.card) → (selectCard d T).1.auth = d.auth) ∧
      ((∃ o ∈ d.cache, o ≠ T ∧ o.card = T.card) →
        (selectCard d T).1.auth ∈ d.cache ∧ (selectCard d T).1.auth ≠ T ∧
          (selectCard d T).1.auth.card = T.card)) ∧
    (isSignCard T = false →
      (selectCard d T).1.auth = T ∧
      ((selectCard d T).1.sign ≠ d.sign →
        (selectCard d T).1.sign ∈ d.cache ∧ (selectCard d T).1.sign ≠ T ∧
          (selectCard d T).1.sign.card = T.card) ∧
      ((∀ o ∈ d.cache, o = T ∨ o.card ≠ T.card) → (selectCard d T).1.sign = d.sign) ∧
      ((∃ o ∈ d.cache, o ≠ T ∧ o.card = T.card) →
        (selectCard d T).1.sign ∈ d.cache ∧ (selectCard d T).1.sign ≠ T ∧
          (selectCard d T).1.sign.card = T.card)) := by
  constructor
  · intro hsign
    have hsign2 : (keyUsage T.cert).contains KeyUsage.NonRepudiation = true := hsign
    have hsome : (∃ o ∈ d.cache, o ≠ T ∧ o.card = T.card) →
        (selectCard d T).1.sign = T ∧ (selectCard d T).1.auth ∈ d.cache ∧
          (selectCard d T).1.auth ≠ T ∧ (selectCard d T).1.auth.card = T.card := by
      intro h
      obtain ⟨o, ho, hne, hc, heq⟩ := selectOther_of_sibling true T ⟨d.auth, T, d.cache⟩
        d.cache h
      unfold selectCard
      simp only [hsign2, if_true]
      rw [heq]
      exact ⟨rfl, ho, hne, hc⟩
    have hnone : (∀ o ∈ d.cache, o = T ∨ o.card ≠ T.card) →
        (selectCard d T).1.sign = T ∧ (selectCard d T).1.auth = d.auth := by
      intro h
      unfold selectCard
      simp only [hsign2, if_true]
      rw [selectOther_of_no_sibling true T ⟨d.auth, T, d.cache⟩ d.cache h]
      exact ⟨rfl, rfl⟩
    by_cases hex : ∃ o ∈ d.cache, o ≠ T ∧ o.card = T.card
    · have h := hsome hex
      exact ⟨h.1, fun _ => h.2, fun hno => (hnone hno).2, fun _ => h.2⟩
    · have hno : ∀ o ∈ d.cache, o = T ∨ o.card ≠ T.card := by
        intro o ho
        by_contra hc
        rw [not_or, not_not] at hc
        exact hex ⟨o, ho, hc.1, hc.2⟩
      have h := hnone hno
      exact ⟨h.1, fun hch => absurd h.2 hch, fun _ => h.2, fun he => absurd he hex⟩
  · intro hsign
    have hsign2 : (keyUsage T.cert).contains KeyUsage.NonRepudiation = false := hsign
    have hsome : (∃ o ∈ d.cache, o ≠ T ∧ o.card = T.card) →
        (selectCard d T).1.auth = T ∧ (selectCard d T).1.sign ∈ d.cache ∧
          (selectCard d T).1.sign ≠ T ∧ (selectCard d T).1.sign.card = T.card := by
      intro h
      obtain ⟨o, ho, hne, hc, heq⟩ := selectOther_of_sibling false T ⟨T, d.sign, d.cache⟩
        d.cache h
      unfold selectCard
      simp only [hsign2, Bool.false_eq_true, if_false]
      rw [heq]
      exact ⟨rfl, ho, hne, hc⟩
    have hnone : (∀ o ∈ d.cache, o = T ∨ o.card ≠ T.card) →
        (selectCard d T).1.auth = T ∧ (selectCard d T).1.sign = d.sign := by
      intro h
      unfold selectCard
      simp only [hsign2, Bool.false_eq_true, if_false]
      rw [selectOther_of_no_sibling false T ⟨T, d.sign, d.cache⟩ d.cache h]
      exact ⟨rfl, rfl⟩
    by_cases hex : ∃ o ∈ d.cache, o ≠ T ∧ o.card = T.card
    · have h := hsome hex
      exact ⟨h.1, fun _ => h.2, fun hno => (hnone hno).2, fun _ => h.2⟩
    · have hno : ∀ o ∈ d.cache, o = T ∨ o.card ≠ T.card := by
        intro o ho
        by_contra hc
        rw [not_or, not_not] at hc
        exact hex ⟨o, ho, hc.1, hc.2⟩
      have h := hnone hno
      exact ⟨h.1, fun hch => absurd h.2 hch, fun _ => h.2, fun he => absurd he hex⟩

/-! ## The elliptic-curve hook -/

/-- The fold of `BN_bin2bn` from an accumulator: the accumulator is shifted by the number
of bytes read. -/
theorem bin2bn_foldl (bytes : QByteArray) (acc : Nat) :
    bytes.foldl (fun a x => 256 * a + x % 256) acc =
      acc * 256 ^ bytes.length + BN_bin2bn bytes := by
  induction bytes generalizing acc with
  | nil => simp [BN_bin2bn]
  | cons x xs ih =>
    unfold BN_bin2bn
    simp only [List.foldl_cons, List.length_cons]
    rw [ih (256 * acc + x % 256), ih (256 * 0 + x % 256)]
    ring

/-- The value `BN_bin2bn` gives is big-endian: the first byte is the most significant. -/
theorem BN_bin2bn_cons (x : Nat) (xs : QByteArray) :
    BN_bin2bn (x :: xs) = x % 256 * 256 ^ xs.length + BN_bin2bn xs := by
  unfold BN_bin2bn
  simp only [List.foldl_cons]
  rw [bin2bn_foldl xs (256 * 0 + x % 256)]
  simp [BN_bin2bn]

/-- C17, as stated, fails on a result of odd length: of the three bytes `1, 2, 3` the hook
takes `r` from the first byte and `s` from the last, the two halves together are not the
result, and the middle byte is in neither. -/
theorem ecdsa_do_sign_odd_drops_byte :
    ecdsaHalves [1, 2, 3] = ([1], [3]) ∧
    ecdsa_do_sign (backendSigning [1, 2, 3]) [7] = some (1, 3) ∧
    (ecdsaHalves [1, 2, 3]).1 ++ (ecdsaHalves [1, 2, 3]).2 ≠ [1, 2, 3] := by
  decide

/-- C17, amended: for an empty backend result the hook returns the null signature. For a
non-empty result it returns `(r, s)` where `r` is the big-endian unsigned integer of the
first `len / 2` bytes and `s` that of the last `len / 2` bytes; the two byte strings have
equal length, and when the length of the result is even they are, one after the other,
exactly the result. -/
theorem ecdsa_do_sign_halves (b : Backend) (dgst : QByteArray) :
    (b.sign 0 dgst = [] → ecdsa_do_sign b dgst = none) ∧
    (b.sign 0 dgst ≠ [] →
      ecdsa_do_sign b dgst =
        some (BN_bin2bn (ecdsaHalves (b.sign 0 dgst)).1,
          BN_bin2bn (ecdsaHalves (b.sign 0 dgst)).2) ∧
      (ecdsaHalves (b.sign 0 dgst)).1 = (b.sign 0 dgst).take ((b.sign 0 dgst).length / 2) ∧
      (ecdsaHalves (b.sign 0 dgst)).2 =
        (b.sign 0 dgst).drop ((b.sign 0 dgst).length - (b.sign 0 dgst).length / 2) ∧
      (ecdsaHalves (b.sign 0 dgst)).1.length = (b.sign 0 dgst).length / 2 ∧
      (ecdsaHalves (b.sign 0 dgst)).2.length = (b.sign 0 dgst).length / 2 ∧
      ((b.sign 0 dgst).length % 2 = 0 →
        (ecdsaHalves (b.sign 0 dgst)).1 ++ (ecdsaHalves (b.sign 0 dgst)).2 =
          b.sign 0 dgst)) ∧
    (∀ x xs, BN_bin2bn (x :: xs) = x % 256 * 256 ^ xs.length + BN_bin2bn xs) ∧
    BN_bin2bn [] = 0 := by
  refine ⟨?_, ?_, BN_bin2bn_cons, rfl⟩
  · intro h
    simp [ecdsa_do_sign, h]
  · intro h
    have hne : (b.sign 0 dgst).isEmpty = false := by
      cases hr : b.sign 0 dgst with
      | nil => exact absurd hr h
      | cons x xs => rfl
    refine ⟨?_, rfl, rfl, ?_, ?_, ?_⟩
    · simp [ecdsa_do_sign, hne, ecdsaHalves]
    · simp only [ecdsaHalves, left, List.length_take]
      omega
    · simp only [ecdsaHalves, right, List.length_drop]
      omega
    · intro heven
      have hhalf : (b.sign 0 dgst).length - (b.sign 0 dgst).length / 2 =
          (b.sign 0 dgst).length / 2 := by omega
      simp only [ecdsaHalves, left, right, hhalf]
      exact List.take_append_drop _ _

/-! ## The card-presence refresh of the discovery loop -/

/-- C18, as stated, fails when both roles change in one iteration: from the empty state
and the two identities of the card `N1000001` both slots are filled, and `reloadCard` is
called once, with the signing identity; it is not called with the new authentication
identity. -/
theorem discover_reloads_sign_only :
    (discover insertionSort Private.init [signA, authA]).1.auth = authA ∧
    (discover insertionSort Private.init [signA, authA]).1.auth ≠ Private.init.auth ∧
    (discover insertionSort Private.init [signA, authA]).1.sign ≠ Private.init.sign ∧
    reloadedCards (discover insertionSort Private.init [signA, authA]).2 = [signA] ∧
    authA ∉ reloadedCards (discover insertionSort Private.init [signA, authA]).2 := by
  decide

/-- C18, amended: a completed discovery iteration calls `reloadCard` exactly once when the
authentication or the signing identity changed, and not at all when neither changed; the
call carries the new signing identity when the signing identity changed, and otherwise the
new authentication identity. -/
theorem discover_reloadCard (sort : Sorter) (d : Private) (tokens : List TokenData) :
    reloadedCards (discover sort d tokens).2 =
      (if (discover sort d tokens).1.sign ≠ d.sign then [(discover sort d tokens).1.sign]
        else if (discover sort d tokens).1.auth ≠ d.auth then
          [(discover sort d tokens).1.auth]
        else []) := by
  rw [discover_state]
  show _ = if (select sort d tokens).st ≠ d.sign then [(select sort d tokens).st]
    else if (select sort d tokens).at1 ≠ d.auth then [(select sort d tokens).at1] else []
  unfold discover reloadedCards
  by_cases h2 : d.auth = (select sort d tokens).at1
  · have h2r := h2.symm
    by_cases h3 : d.sign = (select sort d tokens).st
    · have h3r := h3.symm
      by_cases h1 : (select sort d tokens).cache ≠ d.cache <;>
        simp [h1, h2r, h3r, List.filterMap_append]
    · have h3r := Ne.symm h3
      by_cases h1 : (select sort d tokens).cache ≠ d.cache <;>
        simp [h1, h2r, h3, h3r, List.filterMap_append]
  · have h2r := Ne.symm h2
    by_cases h3 : d.sign = (select sort d tokens).st
    · have h3r := h3.symm
      by_cases h1 : (select sort d tokens).cache ≠ d.cache <;>
        simp [h1, h2, h2r, h3r, List.filterMap_append]
    · have h3r := Ne.symm h3
      by_cases h1 : (select sort d tokens).cache ≠ d.cache <;>
        simp [h1, h2, h2r, h3, h3r, List.filterMap_append]

/-! ## The comparator, as it is -/

/-- C19: `cardsOrder` returns false on every pair of tokens and never reads a capture out
of range: with a match in either label the first guard returns false, and with no match
in the first label its list of captured texts is empty, so the second guard returns
false. -/
theorem cardsOrder_always_false (s1 s2 : TokenData) :
    cardsOrder s1 s2 = some false ∧
    (((regMatch s1.card).hasMatch = true ∨ (regMatch s2.card).hasMatch = true) →
      ((regMatch s1.card).hasMatch || (regMatch s2.card).hasMatch) = true) ∧
    ((regMatch s1.card).hasMatch = false → (regMatch s2.card).hasMatch = false →
      (regMatch s1.card).capturedTexts = [] ∧
      ((regMatch s1.card).capturedTexts.isEmpty ||
        (regMatch s1.card).capturedTexts.isEmpty) = true) := by
  refine ⟨cardsOrder_eq_false s1 s2, ?_, ?_⟩
  · intro h
    rcases h with h | h <;> simp [h]
  · intro h1 _
    have hc := regMatch_capturedTexts_of_no_match s1.card h1
    exact ⟨hc, by simp [hc]⟩

/-! ## SslCertificate::type -/

/-- C20 fails for the literal `1.3.6.1.4.1.10015.3.11` of the mobile-ID branch: it starts
with `1.3.6.1.4.1.10015.3.1`, which the first branch tests, so a certificate with this
one policy is an `EstEidType`, whatever its organization and qcStatements. It is the only
listed literal whose certificate is not classified by its own branch; the literal
`1.3.6.1.4.1.51361.1.1.3` yields `DigiIDType`. -/
theorem type_shadowed_mobile_id (organization : String)
    (qcStatements : Option (List String)) :
    SslCertificate.type ["1.3.6.1.4.1.10015.3.11"] organization qcStatements =
      CertType.EstEidType ∧
    startsWith "1.3.6.1.4.1.10015.3.11" "1.3.6.1.4.1.10015.3.1" = true ∧
    SslCertificate.type ["1.3.6.1.4.1.51361.1.1.3"] organization qcStatements =
      CertType.DigiIDType ∧
    listedPolicies.filter (fun x => SslCertificate.type [x.1] "" none != x.2) =
      [("1.3.6.1.4.1.10015.3.11", CertType.MobileIDType)] := by
  refine ⟨?_, by decide, ?_, by decide⟩
  · have h : typeOfPolicies organization ["1.3.6.1.4.1.10015.3.11"] =
        some CertType.EstEidType := by
      have hs : startsWith "1.3.6.1.4.1.10015.3.11" "1.3.6.1.4.1.10015.3.1" = true := by
        decide
      unfold typeOfPolicies
      simp [hs]
    unfold SslCertificate.type
    rw [h]
  · have h : typeOfPolicies organization ["1.3.6.1.4.1.51361.1.1.3"] =
        some CertType.DigiIDType := by
      have h1 : startsWith "1.3.6.1.4.1.51361.1.1.3" "1.3.6.1.4.1.10015.1.1" = false := by
        decide
      have h2 : startsWith "1.3.6.1.4.1.51361.1.1.3" "1.3.6.1.4.1.10015.3.1" = false := by
        decide
      have h3 : startsWith "1.3.6.1.4.1.51361.1.1.3" "1.3.6.1.4.1.10015.1.2" = false := by
        decide
      have h4 : startsWith "1.3.6.1.4.1.51361.1.1.3" "1.3.6.1.4.1.10015.3.2" = false := by
        decide
      have h5 : startsWith "1.3.6.1.4.1.51361.1.1.3" "1.3.6.1.4.1.10015.1.3" = false := by
        decide
      have h6 : startsWith "1.3.6.1.4.1.51361.1.1.3" "1.3.6.1.4.1.10015.11.1" = false := by
        decide
      have h7 : startsWith "1.3.6.1.4.1.51361.1.1.3" "1.3.6.1.4.1.10015.3.3" = false := by
        decide
      have h8 : startsWith "1.3.6.1.4.1.51361.1.1.3" "1.3.6.1.4.1.10015.3.11" = false := by
        decide
      have h9 : startsWith "1.3.6.1.4.1.51361.1.1.3" "1.3.6.1.4.1.10015.7.1" = false := by
        decide
      have h10 : startsWith "1.3.6.1.4.1.51361.1.1.3" "1.3.6.1.4.1.10015.7.3" = false := by
        decide
      have h11 : startsWith "1.3.6.1.4.1.51361.1.1.3" "1.3.6.1.4.1.10015.2.1" = false := by
        decide
      have h12 : startsWith "1.3.6.1.4.1.51361.1.1.3" "1.3.6.1.4.1.10015.3.7" = false := by
        decide
      have h13 : startsWith "1.3.6.1.4.1.51361.1.1.3" "1.3.6.1.4.1.51361.1.1.3" = true := by
        decide
      unfold typeOfPolicies
      simp [h1, h2, h3, h4, h5, h6, h7, h8, h9, h10, h11, h12, h13]
    unfold SslCertificate.type
    rw [h]

end QSigner
